import Mathlib

/-!
Verification of the versioned competition store of korylprince/competition-scorer.

The Go code persists a `Competition` (named rounds, teams with per-round
optional int32 scores) in a boltdb file.  Bolt offers hierarchical buckets:
a bucket maps byte-string keys to either leaf byte values or sub-buckets,
with ACID transactions (commit applies all mutations, rollback none).

Shallow embedding used here:

* A bucket is an association list `Bkt := List (Key × Entry)` looked up by
  first match; keys inserted by the code are unique, so this matches bolt.
* Go keys are byte strings.  The code uses two disjoint kinds of keys:
  literal strings ("name", "config", ...) and 4-byte big-endian int32
  encodings produced by `intToBytes`.  `Key` tags the two kinds; since
  `intToBytes` is injective on int32 and no bucket of this program mixes a
  string key with an int key of the same bytes, the tagged model preserves
  bolt's key equality exactly on every state this development touches.
* Leaf values are tagged by their producer (`Val`): Go strings, 4-byte
  big-endian int32s (`intToBytes`), `time.MarshalBinary` output, and bcrypt
  hashes.  `bytesToInt` (binary.Read of 4 bytes) succeeds exactly on the
  int32 encoding; `time.UnmarshalBinary` exactly on the time encoding;
  reinterpreting other bytes as a Go string yields a non-empty string,
  modelled by `Val.asGoStr`.  Because the encodings write exactly 4 bytes,
  every stored/decoded int32 is wrapped into the int32 range (`toInt32`),
  mirroring Go's `int32` typing.
* Machine integers are `Int` with explicit wrapping `toInt32` at every
  point where Go performs an `int32` conversion or int32 arithmetic.
* Each Go function becomes a pure function threading the mutated bucket;
  fallible code returns `Except Err _` or a `Bkt × Option Err` pair when
  the partially mutated bucket is observable inside the open transaction.
* The transaction protocol of `boltDB.Write` (manual Begin / deferred
  Rollback-on-error / Commit) is modelled by `WriteResult`: `.ok` is a
  committed new root, `.err` a rolled-back transaction (pre-state kept),
  and `.panicked` the state committed by the deferred handler when the
  body panics with `err == nil` (the handler then commits, see
  `db.go:355-367`: on a panic `err` is still nil, so `tx.Commit()` runs).
-/

namespace CompScorer

instance {ε α : Type} [DecidableEq ε] [DecidableEq α] :
    DecidableEq (Except ε α) := fun a b =>
  match a, b with
  | .ok x, .ok y =>
    if h : x = y then isTrue (by rw [h])
    else isFalse (by intro hc; cases hc; exact h rfl)
  | .error x, .error y =>
    if h : x = y then isTrue (by rw [h])
    else isFalse (by intro hc; cases hc; exact h rfl)
  | .ok _, .error _ => isFalse (by intro hc; cases hc)
  | .error _, .ok _ => isFalse (by intro hc; cases hc)

/-! ## int32 arithmetic -/

def int32Min : Int := -(2 ^ 31)

def int32Max : Int := 2 ^ 31 - 1

/-- Wrap an integer into the int32 range, as Go's `int32(x)` conversion and
int32 overflow do. -/
def toInt32 (i : Int) : Int := (i + 2 ^ 31) % 2 ^ 32 - 2 ^ 31

/-! ## Leaf values and keys -/

/-- A leaf byte value, tagged by the encoder that produced it. -/
inductive Val where
  /-- raw bytes of a Go string (`[]byte(s)`); `.str ""` is the empty value -/
  | str (s : String)
  /-- output of `intToBytes`: 4 bytes big-endian -/
  | i32 (i : Int)
  /-- output of `time.Time.MarshalBinary`; the `Int` stands for the instant -/
  | time (t : Int)
  /-- output of `bcrypt.GenerateFromPassword(password, cost)` -/
  | hash (password : String) (cost : Nat)
deriving DecidableEq, Repr

/-- Go's `string(b)` cast of the bytes of a value.  The non-`str` encodings
are non-empty byte sequences that are not valid names, rendered as marker
strings (injective per tag, never empty). -/
def Val.asGoStr : Val → String
  | .str s => s
  | .i32 i => "\x00i32:" ++ toString i
  | .time t => "\x00time:" ++ toString t
  | .hash pw cost => "\x00hash:" ++ toString cost ++ ":" ++ pw

/-- `string(b.Get(k))`: a missing key (`nil` bytes) casts to `""`. -/
def goStrOf : Option Val → String
  | none => ""
  | some v => v.asGoStr

/-- A bolt key: either a literal string key or an `intToBytes`-encoded
int32 key. -/
inductive Key where
  | s (name : String)
  | i (i : Int)
deriving DecidableEq, Repr

/-- An entry of a bucket: a leaf value or a sub-bucket. -/
inductive Entry where
  | v (val : Val)
  | b (entries : List (Key × Entry))

/-- A bolt bucket: association list from keys to entries, first match wins. -/
abbrev Bkt := List (Key × Entry)

mutual

def Entry.decEq : (a b : Entry) → Decidable (a = b)
  | .v v1, .v v2 =>
    if h : v1 = v2 then isTrue (by rw [h])
    else isFalse (by intro hc; cases hc; exact h rfl)
  | .v _, .b _ => isFalse (by intro hc; cases hc)
  | .b _, .v _ => isFalse (by intro hc; cases hc)
  | .b l1, .b l2 =>
    match Entry.listDecEq l1 l2 with
    | isTrue h => isTrue (by rw [h])
    | isFalse h => isFalse (by intro hc; cases hc; exact h rfl)

def Entry.pairDecEq : (a b : Key × Entry) → Decidable (a = b)
  | (k1, e1), (k2, e2) =>
    if hk : k1 = k2 then
      match Entry.decEq e1 e2 with
      | isTrue he => isTrue (by rw [hk, he])
      | isFalse he => isFalse (by intro hc; cases hc; exact he rfl)
    else isFalse (by intro hc; cases hc; exact hk rfl)

def Entry.listDecEq : (a b : List (Key × Entry)) → Decidable (a = b)
  | [], [] => isTrue rfl
  | [], _ :: _ => isFalse (by intro hc; cases hc)
  | _ :: _, [] => isFalse (by intro hc; cases hc)
  | x :: xs, y :: ys =>
    match Entry.pairDecEq x y with
    | isTrue hx =>
      match Entry.listDecEq xs ys with
      | isTrue hxs => isTrue (by rw [hx, hxs])
      | isFalse hxs => isFalse (by intro hc; cases hc; exact hxs rfl)
    | isFalse hx => isFalse (by intro hc; cases hc; exact hx rfl)

end

instance : DecidableEq Entry := Entry.decEq

/-! ## Bucket primitives (bolt semantics) -/

/-- Raw lookup of a key in a bucket (first match). -/
def bget : Bkt → Key → Option Entry
  | [], _ => none
  | (k', e) :: rest, k => if k' = k then some e else bget rest k

/-- bolt `Bucket.Get`: returns the leaf value at the key, `nil` (`none`) if
the key is missing or holds a sub-bucket. -/
def bGetVal (b : Bkt) (k : Key) : Option Val :=
  match bget b k with
  | some (.v v) => some v
  | _ => none

/-- bolt `Bucket.Bucket`: returns the sub-bucket at the key, `nil` (`none`)
if the key is missing or holds a leaf value. -/
def bGetBkt (b : Bkt) (k : Key) : Option Bkt :=
  match bget b k with
  | some (.b bb) => some bb
  | _ => none

/-- Replace the entry at a key, or append it if the key is absent. -/
def setEntry : Bkt → Key → Entry → Bkt
  | [], k, e => [(k, e)]
  | (k', e') :: rest, k, e =>
    if k' = k then (k, e) :: rest else (k', e') :: setEntry rest k e

/-! ## Errors (`db.Error`: description plus optional wrapped cause) -/

/-- The `db.Error` taxonomy.  `shapeMismatch` is the error built at
marshal.go:63 ("Team(%s) Rounds(%d) doesn't match Competition Rounds(%d)"),
carried structurally so it is testable by kind. -/
inductive Err where
  | msg (description : String)
  | wrap (description : String) (cause : Err)
  | shapeMismatch (team : String) (teamRounds compRounds : Nat)
deriving DecidableEq, Repr

/-- Strip the `wrap` layers added while propagating an error upward. -/
def Err.root : Err → Err
  | .wrap _ e => e.root
  | e => e

/-- bolt `Bucket.Put`: errors (`ErrIncompatibleValue`) if the key holds a
sub-bucket, otherwise replaces/inserts the leaf value. -/
def bPut (b : Bkt) (k : Key) (v : Val) : Except Err Bkt :=
  match bget b k with
  | some (.b _) => .error (.msg "incompatible value")
  | _ => .ok (setEntry b k (.v v))

/-- bolt `Bucket.CreateBucket` (and `Tx.CreateBucket`): errors if the key
exists at all; otherwise installs an empty sub-bucket, returning the updated
parent and the (empty) new bucket. -/
def bCreateBucket (b : Bkt) (k : Key) : Except Err (Bkt × Bkt) :=
  match bget b k with
  | some _ => .error (.msg "bucket already exists or incompatible value")
  | none => .ok (setEntry b k (.b []), [])

/-- bolt `CreateBucketIfNotExists`: reuses an existing sub-bucket, errors if
the key holds a leaf value, creates an empty sub-bucket otherwise.  Returns
the updated parent and the sub-bucket's contents. -/
def bCreateBucketIfNotExists (b : Bkt) (k : Key) : Except Err (Bkt × Bkt) :=
  match bget b k with
  | some (.b bb) => .ok (b, bb)
  | some (.v _) => .error (.msg "incompatible value")
  | none => .ok (setEntry b k (.b []), [])

/-- bolt `Tx.DeleteBucket`: errors if the key is missing or holds a leaf
value, otherwise removes it. -/
def bDeleteBucket (b : Bkt) (k : Key) : Except Err Bkt :=
  match bget b k with
  | some (.b _) => .ok (b.filter (fun ent => decide (ent.1 ≠ k)))
  | some (.v _) => .error (.msg "incompatible value")
  | none => .error (.msg "bucket not found")

/-! ## marshal.go: primitive codecs -/

/-- marshal.go:18 `intToBytes`: 4-byte big-endian encoding of an int32.
All Go call sites pass an `int32`, so the value is wrapped into the int32
range exactly as Go's typing does. -/
def intToBytes (i : Int) : Val := .i32 (toInt32 i)

/-- marshal.go:11 `bytesToInt`: `binary.Read` of exactly 4 big-endian
bytes.  Succeeds precisely on a 4-byte value, i.e. on the `intToBytes`
encoding, and the result is in the int32 range.  (`nil`, short and long
buffers fail with `binary.Read`'s error.) -/
def bytesToInt : Option Val → Except Err Int
  | some (.i32 i) => .ok (toInt32 i)
  | _ => .error (.msg "binary.Read failed")

/-- `time.Time.UnmarshalBinary`: succeeds exactly on `MarshalBinary`
output; `nil`, empty and foreign bytes fail. -/
def timeUnmarshal : Option Val → Except Err Int
  | some (.time t) => .ok t
  | _ => .error (.msg "Time.UnmarshalBinary: invalid data")

/-! ## Domain entities (db/api.go) -/

/-- api.go `Team`: scores are optional int32s, `none` = not yet scored
(`nil` pointer in Go). -/
structure Team where
  name : String
  scores : List (Option Int)
deriving DecidableEq, Repr

/-- api.go `Competition`. -/
structure Competition where
  name : String
  rounds : List String
  teams : List Team
deriving DecidableEq, Repr

/-- api.go `Revision`; `competition` is `none` in list views. -/
structure Revision where
  id : Int
  timestamp : Int
  competition : Option Competition
deriving DecidableEq, Repr

/-! ## marshal.go: Team and Competition codecs

Write-side functions return the bucket as mutated so far together with an
optional error, because inside an open bolt transaction a failing write
leaves its earlier mutations in place until the transaction is resolved. -/

/-- The score loop of marshal.go:71-80 (`writeTeam`): for each round index,
skip `nil` scores, otherwise put `intToBytes(int32(i)) -> intToBytes(score)`.
The Go loop runs over `0 ≤ i < rounds` indexing `t.Scores`; it is entered
only after `len(t.Scores) == rounds` was checked, so it is the same as
recursing over the scores list with a running index. -/
def writeScores (sb : Bkt) : List (Option Int) → Nat → Bkt × Option Err
  | [], _ => (sb, none)
  | none :: rest, i => writeScores sb rest (i + 1)
  | some v :: rest, i =>
    match bPut sb (.i (toInt32 i)) (intToBytes v) with
    | .error e => (sb, some (.wrap "Couldn't write Team Round Score" e))
    | .ok sb1 => writeScores sb1 rest (i + 1)

/-- marshal.go:56 `writeTeam`.  Note the order taken from the source: the
team name is written FIRST, and only then is the score-sequence length
checked against the round count. -/
def writeTeam (b : Bkt) (t : Team) (rounds : Nat) : Bkt × Option Err :=
  match bPut b (.s "name") (.str t.name) with
  | .error e => (b, some (.wrap "Couldn't write Team name" e))
  | .ok b1 =>
    if t.scores.length ≠ rounds then
      (b1, some (.shapeMismatch t.name t.scores.length rounds))
    else
      match bCreateBucketIfNotExists b1 (.s "scores") with
      | .error e => (b1, some (.wrap "Couldn't create Team scores Bucket" e))
      | .ok (b2, sb) =>
        let res := writeScores sb t.scores 0
        (setEntry b2 (.s "scores") (.b res.1), res.2)

/-- The round-name loop of marshal.go:169-174 (`writeCompetition`). -/
def writeRounds (rb : Bkt) : List String → Nat → Bkt × Option Err
  | [], _ => (rb, none)
  | r :: rest, i =>
    match bPut rb (.i (toInt32 i)) (.str r) with
    | .error e => (rb, some (.wrap "Couldn't write Competition Round name" e))
    | .ok rb1 => writeRounds rb1 rest (i + 1)

/-- The team loop of marshal.go:181-191 (`writeCompetition`): create the
indexed team bucket, then `writeTeam` into it.  The wrap text mirrors the
source's "Couldn't write Competition(%s) Time(%d)" message. -/
def writeTeams (tb : Bkt) : List Team → Nat → Nat → Bkt × Option Err
  | [], _, _ => (tb, none)
  | t :: rest, i, rounds =>
    match bCreateBucketIfNotExists tb (.i (toInt32 i)) with
    | .error e => (tb, some (.wrap "Couldn't create Competition Team Bucket" e))
    | .ok (tb1, teamB) =>
      let res := writeTeam teamB t rounds
      let tb2 := setEntry tb1 (.i (toInt32 i)) (.b res.1)
      match res.2 with
      | some e => (tb2, some (.wrap "Couldn't write Competition Time" e))
      | none => writeTeams tb2 rest (i + 1) rounds

/-- marshal.go:143 `writeCompetition`. -/
def writeCompetition (b : Bkt) (c : Competition) : Bkt × Option Err :=
  match bPut b (.s "name") (.str c.name) with
  | .error e => (b, some (.wrap "Couldn't write Competition name" e))
  | .ok b1 =>
  match bCreateBucketIfNotExists b1 (.s "config") with
  | .error e => (b1, some (.wrap "Couldn't create Competition config Bucket" e))
  | .ok (b2, cfg) =>
  match bPut cfg (.s "rounds") (intToBytes c.rounds.length) with
  | .error e => (b2, some (.wrap "Couldn't write Competition config.rounds" e))
  | .ok cfg1 =>
  match bPut cfg1 (.s "teams") (intToBytes c.teams.length) with
  | .error e =>
    (setEntry b2 (.s "config") (.b cfg1),
     some (.wrap "Couldn't write Competition config.teams" e))
  | .ok cfg2 =>
  let b3 := setEntry b2 (.s "config") (.b cfg2)
  match bCreateBucketIfNotExists b3 (.s "rounds") with
  | .error e => (b3, some (.wrap "Couldn't create Competition rounds Bucket" e))
  | .ok (b4, rb) =>
  let rres := writeRounds rb c.rounds 0
  let b5 := setEntry b4 (.s "rounds") (.b rres.1)
  match rres.2 with
  | some e => (b5, some e)
  | none =>
  match bCreateBucketIfNotExists b5 (.s "teams") with
  | .error e => (b5, some (.wrap "Couldn't create Competition teams Bucket" e))
  | .ok (b6, tb) =>
  let tres := writeTeams tb c.teams 0 c.rounds.length
  (setEntry b6 (.s "teams") (.b tres.1), tres.2)

/-- The score loop of marshal.go:41-51 (`readTeam`): for `0 ≤ i < rounds`,
a present key decodes to a recorded score, an absent key to "unscored".
Recursion on the remaining round count `fuel`, with `i` the current index. -/
def readScoresGo (sb : Bkt) (i : Nat) : Nat → Except Err (List (Option Int))
  | 0 => .ok []
  | fuel + 1 =>
    match bGetVal sb (.i (toInt32 i)) with
    | some v =>
      match bytesToInt (some v) with
      | .error e => .error (.wrap "Couldn't decode Team Round score" e)
      | .ok val =>
        match readScoresGo sb (i + 1) fuel with
        | .error e => .error e
        | .ok rest => .ok (some val :: rest)
    | none =>
      match readScoresGo sb (i + 1) fuel with
      | .error e => .error e
      | .ok rest => .ok (none :: rest)

/-- marshal.go:27 `readTeam`. -/
def readTeam (b : Bkt) (rounds : Nat) : Except Err Team :=
  let name := goStrOf (bGetVal b (.s "name"))
  if name = "" then .error (.msg "Team name was empty")
  else
    match bGetBkt b (.s "scores") with
    | none => .error (.msg "Team scores Bucket was nil")
    | some sb =>
      match readScoresGo sb 0 rounds with
      | .error e => .error e
      | .ok scores => .ok ⟨name, scores⟩

/-- The round-name loop of marshal.go:119-124 (`readCompetition`). -/
def readRoundsGo (rb : Bkt) (i : Nat) : Nat → Except Err (List String)
  | 0 => .ok []
  | fuel + 1 =>
    let r := goStrOf (bGetVal rb (.i (toInt32 i)))
    if r = "" then .error (.msg "Competition Round was empty")
    else
      match readRoundsGo rb (i + 1) fuel with
      | .error e => .error e
      | .ok rest => .ok (r :: rest)

/-- The team loop of marshal.go:131-138 (`readCompetition`).  A missing
indexed team bucket makes Go pass a nil `*bolt.Bucket` into `readTeam`,
which dereferences it: a crash, modelled as a distinguished error (no
claim reaches this case). -/
def readTeamsGo (tb : Bkt) (rounds : Nat) (i : Nat) :
    Nat → Except Err (List Team)
  | 0 => .ok []
  | fuel + 1 =>
    match bGetBkt tb (.i (toInt32 i)) with
    | none => .error (.msg "go runtime panic: readTeam on nil Bucket")
    | some teamB =>
      match readTeam teamB rounds with
      | .error e => .error (.wrap "Couldn't read Competition Team" e)
      | .ok t =>
        match readTeamsGo tb rounds (i + 1) fuel with
        | .error e => .error e
        | .ok rest => .ok (t :: rest)

/-- marshal.go:85 `readCompetition`.  A negative decoded `rounds`/`teams`
count makes Go panic in `make` (marshal.go:110-111); modelled as a
distinguished error (no claim reaches this case). -/
def readCompetition (b : Bkt) : Except Err Competition :=
  let name := goStrOf (bGetVal b (.s "name"))
  if name = "" then .error (.msg "Competition name was empty")
  else
    match bGetBkt b (.s "config") with
    | none => .error (.msg "Competition config Bucket was nil")
    | some cfg =>
    match bytesToInt (bGetVal cfg (.s "rounds")) with
    | .error e => .error (.wrap "Couldn't decode Competition config.rounds" e)
    | .ok rounds =>
    match bytesToInt (bGetVal cfg (.s "teams")) with
    | .error e => .error (.wrap "Couldn't decode Competition config.teams" e)
    | .ok teams =>
    if rounds < 0 ∨ teams < 0 then
      .error (.msg "go runtime panic: make with negative length")
    else
    match bGetBkt b (.s "rounds") with
    | none => .error (.msg "Competition rounds Bucket was nil")
    | some rb =>
    match readRoundsGo rb 0 rounds.toNat with
    | .error e => .error e
    | .ok rlist =>
    match bGetBkt b (.s "teams") with
    | none => .error (.msg "Competition teams Bucket was nil")
    | some tb =>
    match readTeamsGo tb rounds.toNat 0 teams.toNat with
    | .error e => .error e
    | .ok tlist => .ok ⟨name, rlist, tlist⟩

/-! ## Validity (the Data Model invariants of the spec) -/

/-- A score is representable as an int32 (Go's `int32` typing makes this
automatic for real callers). -/
def scoreOK (s : Option Int) : Prop :=
  match s with
  | none => True
  | some v => int32Min ≤ v ∧ v ≤ int32Max

instance (s : Option Int) : Decidable (scoreOK s) := by
  unfold scoreOK; cases s <;> infer_instance

/-- A valid team relative to the round count: non-empty name, one score
slot per round. -/
def validTeam (t : Team) (rounds : Nat) : Prop :=
  t.name ≠ "" ∧ t.scores.length = rounds ∧ ∀ s ∈ t.scores, scoreOK s

instance (t : Team) (rounds : Nat) : Decidable (validTeam t rounds) := by
  unfold validTeam; infer_instance

/-- A valid competition: non-empty names, every team's score count equal to
the round count, counts representable as int32 (the layout stores them as
int32). -/
def validCompetition (c : Competition) : Prop :=
  c.name ≠ "" ∧ (∀ r ∈ c.rounds, r ≠ "") ∧
    c.rounds.length < 2 ^ 31 ∧ c.teams.length < 2 ^ 31 ∧
    ∀ t ∈ c.teams, validTeam t c.rounds.length

instance (c : Competition) : Decidable (validCompetition c) := by
  unfold validCompetition; infer_instance

/-! ## db.go: the versioned store

The whole database file is the root bucket (`Bkt`); top-level buckets are
"config", "competition" and "revisions".  Read-only operations take the
root and return `Except`; the write transaction protocol is explicit in
`WriteResult`. -/

/-- db.go:147 `getLatestRevision`: reads `config.current_revision`; the
absent key is the −1 sentinel; a missing config bucket is an error. -/
def getLatestRevision (root : Bkt) : Except Err Int :=
  match bGetBkt root (.s "config") with
  | none => .error (.msg "Database config Bucket was nil")
  | some cfg =>
    match bGetVal cfg (.s "current_revision") with
    | none => .ok (-1)
    | some v =>
      match bytesToInt (some v) with
      | .error e => .error e
      | .ok last => .ok last

/-- db.go:258 `Read`: `none` when the competition bucket does not exist. -/
def Read (root : Bkt) : Except Err (Option Competition) :=
  match bGetBkt root (.s "competition") with
  | none => .ok none
  | some cb =>
    match readCompetition cb with
    | .error e => .error e
    | .ok c => .ok (some c)

/-- One iteration of the loop of db.go:185-205 (`Revisions`): fetch
revision `i`'s config's `last_modified` and build the list entry (with the
Competition omitted). -/
def revisionEntry (revs : Bkt) (i : Nat) : Except Err Revision :=
  match bGetBkt revs (.i (toInt32 i)) with
  | none => .error (.msg "Couldn't get Revision")
  | some rb =>
    match bGetBkt rb (.s "config") with
    | none => .error (.msg "Revision config Bucket was nil")
    | some cfg =>
      match timeUnmarshal (bGetVal cfg (.s "last_modified")) with
      | .error e => .error (.wrap "Couldn't decode Revision config.last_modified" e)
      | .ok t => .ok ⟨toInt32 i, t, none⟩

/-- The ascending loop of db.go:185-205: entries `0 ≤ i < n` in order,
failing at the smallest bad index. -/
def revisionsList (revs : Bkt) : Nat → Except Err (List Revision)
  | 0 => .ok []
  | n + 1 =>
    match revisionsList revs n with
    | .error e => .error e
    | .ok rs =>
      match revisionEntry revs n with
      | .error e => .error e
      | .ok r => .ok (rs ++ [r])

/-- db.go:161 `Revisions`: all archived revisions from id 0 to the latest
in ascending order, the empty list (not an error) when the revisions bucket
does not exist. -/
def Revisions (root : Bkt) : Except Err (List Revision) :=
  match bGetBkt root (.s "revisions") with
  | none => .ok []
  | some revs =>
    match getLatestRevision root with
    | .error e => .error (.wrap "Couldn't get latest Revision" e)
    | .ok last => revisionsList revs (last + 1).toNat

/-- db.go:210 `ReadRevision`: the full snapshot for the given id, `none`
when the revisions bucket or the id does not exist. -/
def ReadRevision (root : Bkt) (id : Int) : Except Err (Option Revision) :=
  match bGetBkt root (.s "revisions") with
  | none => .ok none
  | some revs =>
    match bGetBkt revs (.i (toInt32 id)) with
    | none => .ok none
    | some rb =>
      match bGetBkt rb (.s "config") with
      | none => .error (.msg "Revision config Bucket was nil")
      | some cfg =>
        match timeUnmarshal (bGetVal cfg (.s "last_modified")) with
        | .error e =>
          .error (.wrap "Couldn't decode Revision config.last_modified" e)
        | .ok t =>
          match bGetBkt rb (.s "competition") with
          | none => .error (.msg "Revision competition Bucket was nil")
          | some cb =>
            match readCompetition cb with
            | .error e => .error (.wrap "Couldn't read Revision Competition" e)
            | .ok c => .ok (some ⟨id, t, some c⟩)

/-- db.go:77 `UpdateCredentials`: in its own write transaction, ensure the
top-level config bucket and replace `username` and `hash` (bcrypt, cost 12).
On success the new root is returned; on error the transaction rolls back,
so the caller's state is unchanged. -/
def UpdateCredentials (root : Bkt) (username password : String) :
    Except Err Bkt :=
  match bCreateBucketIfNotExists root (.s "config") with
  | .error e => .error (.wrap "Couldn't create Database config Bucket" e)
  | .ok (root1, cfg) =>
    match bPut cfg (.s "username") (.str username) with
    | .error e => .error (.wrap "Couldn't update username" e)
    | .ok cfg1 =>
      match bPut cfg1 (.s "hash") (.hash password 12) with
      | .error e => .error (.wrap "Couldn't update password hash" e)
      | .ok cfg2 => .ok (setEntry root1 (.s "config") (.b cfg2))

/-- `bcrypt.CompareHashAndPassword == nil`: verifies exactly when the
stored value is a bcrypt hash of the same password (a missing key or
foreign bytes fail to parse as a hash, hence do not verify). -/
def bcryptVerify (stored : Option Val) (password : String) : Bool :=
  match stored with
  | some (.hash pw _) => pw == password
  | _ => false

/-- db.go:52 `Authenticate` (read-only transaction). -/
def Authenticate (root : Bkt) (username password : String) :
    Except Err Bool :=
  match bGetBkt root (.s "config") with
  | none => .error (.msg "Database config Bucket was nil")
  | some cfg =>
    if username ≠ goStrOf (bGetVal cfg (.s "username")) then .ok false
    else .ok (bcryptVerify (bGetVal cfg (.s "hash")) password)

/-- db.go:278 `writeRevision` (runs inside `Write`'s open transaction,
threading the root).  Archive step: decode the live document, copy its
`last_modified` verbatim, create the revision bucket at `latest + 1`
(int32 arithmetic), write the snapshot, then persist the new latest id.
`Get` of a missing `last_modified` is nil; `Put` of nil stores the empty
value (`.str ""`). -/
def writeRevision (root : Bkt) : Except Err Bkt :=
  match bGetBkt root (.s "competition") with
  | none => .ok root
  | some live =>
  match readCompetition live with
  | .error e => .error (.wrap "Couldn't read competition" e)
  | .ok old =>
  match bGetBkt live (.s "config") with
  | none => .error (.msg "Competition config Bucket was nil")
  | some liveCfg =>
  let lastModified := bGetVal liveCfg (.s "last_modified")
  match bCreateBucketIfNotExists root (.s "revisions") with
  | .error e => .error (.wrap "Couldn't create Database revisions Bucket" e)
  | .ok (root1, revs) =>
  match getLatestRevision root1 with
  | .error e => .error (.wrap "Couldn't get latest Revision" e)
  | .ok last =>
  let next := toInt32 (last + 1)
  match bCreateBucketIfNotExists revs (.i next) with
  | .error e => .error (.wrap "Couldn't create Revision bucket" e)
  | .ok (revs1, revB) =>
  match bCreateBucket revB (.s "config") with
  | .error e => .error (.wrap "Couldn't create Revision config bucket" e)
  | .ok (revB1, cfgB) =>
  match bPut cfgB (.s "last_modified") (lastModified.getD (.str "")) with
  | .error e => .error (.wrap "Couldn't write Revision config.last_modified" e)
  | .ok cfgB1 =>
  let revB2 := setEntry revB1 (.s "config") (.b cfgB1)
  match bCreateBucket revB2 (.s "competition") with
  | .error e => .error (.wrap "Couldn't create Revision competition bucket" e)
  | .ok (revB3, compB) =>
  let wres := writeCompetition compB old
  match wres.2 with
  | some e => .error (.wrap "Couldn't write Revision" e)
  | none =>
  let revB4 := setEntry revB3 (.s "competition") (.b wres.1)
  let revs2 := setEntry revs1 (.i next) (.b revB4)
  let root2 := setEntry root1 (.s "revisions") (.b revs2)
  match bGetBkt root2 (.s "config") with
  | none => .error (.msg "Database config Bucket was nil")
  | some cfgTop =>
  match bPut cfgTop (.s "current_revision") (intToBytes next) with
  | .error e => .error (.wrap "Couldn't write Database config.current_revision" e)
  | .ok cfgTop1 => .ok (setEntry root2 (.s "config") (.b cfgTop1))

/-- Outcome of `boltDB.Write`'s transaction (db.go:350): `.ok` committed,
`.err` rolled back (pre-state persists), `.panicked` the body panicked with
`err == nil`, so the deferred handler COMMITTED the partial state and the
panic propagated (db.go:355-367). -/
inductive WriteResult where
  | ok (root : Bkt)
  | err (e : Err)
  | panicked (root : Bkt)
deriving DecidableEq

/-- Encoding the new live document inside `Write` (db.go:403): a nil
Competition makes `writeCompetition` dereference `c.Name` and panic before
writing anything. -/
def writeCompetitionOpt (b : Bkt) (c : Option Competition) :
    Bkt × Option Err ⊕ Unit :=
  match c with
  | none => .inr ()
  | some comp => .inl (writeCompetition b comp)

/-- db.go:350 `Write`: archive the live document (if any) as a new
revision, delete the live bucket, recreate it with a fresh `last_modified`
stamp (`now` models `time.Now()`, whose `MarshalBinary` does not fail for
real clock values), and encode the supplied document. -/
def Write (root : Bkt) (c : Option Competition) (now : Int) : WriteResult :=
  let archived : Except Err Bkt :=
    match bGetBkt root (.s "competition") with
    | none => .ok root
    | some _ =>
      match writeRevision root with
      | .error e => .error (.wrap "Couldn't write Revision" e)
      | .ok root1 =>
        match bDeleteBucket root1 (.s "competition") with
        | .error e => .error (.wrap "Couldn't clear competition Bucket" e)
        | .ok root2 => .ok root2
  match archived with
  | .error e => .err e
  | .ok root2 =>
  match bCreateBucket root2 (.s "competition") with
  | .error e => .err (.wrap "Couldn't create competition Bucket" e)
  | .ok (root3, compB) =>
  match bCreateBucket compB (.s "config") with
  | .error e => .err (.wrap "Couldn't create Competition config Bucket" e)
  | .ok (compB1, cfgB) =>
  match bPut cfgB (.s "last_modified") (.time now) with
  | .error e => .err (.wrap "Couldn't write Competition config.last_modified" e)
  | .ok cfgB1 =>
  let compB2 := setEntry compB1 (.s "config") (.b cfgB1)
  match writeCompetitionOpt compB2 c with
  | .inr () =>
    -- c == nil: `c.Name` panics; err is nil, so the deferred handler commits
    .panicked (setEntry root3 (.s "competition") (.b compB2))
  | .inl wres =>
    let root4 := setEntry root3 (.s "competition") (.b wres.1)
    match wres.2 with
    | some e => .err e
    | none => .ok root4

/-- The persisted state after a `Write` call: committed on `.ok`, the
engine's rollback restores the pre-state on `.err`, and the deferred
`tx.Commit()` persists the partial state on a panic. -/
def applyWrite (root : Bkt) (c : Option Competition) (now : Int) : Bkt :=
  match Write root c now with
  | .ok r => r
  | .err _ => root
  | .panicked r => r

/-- The Competition literal built by db.go:26-43 (`Init`).  Rounds are
auto-named "Round 1" … "Round n".  NOTE db.go:39 reads
`Scores: make([]int32, rounds)` — a zero-filled value slice — although
`Team.Scores` is declared `[]*int32` (api.go:8); the declared intent
everywhere else (marshal.go nil checks, the spec) is a nil-filled
`[]*int32`.  We model the line as written: every score present with
value 0 rather than unscored. -/
def initCompetition (name : String) (rounds : Int) (teams : List String) :
    Competition :=
  { name := name
    rounds := (List.range rounds.toNat).map (fun i => "Round " ++ toString (i + 1))
    teams := teams.map (fun t => ⟨t, List.replicate rounds.toNat (some 0)⟩) }

/-- db.go:21 `Init`: update the credentials (its own committed
transaction), then write the bootstrap competition (a second transaction).
The first component is the state left persisted: the pre-state if the
credential update failed, the credential-only state if the write failed.
(`Write` of a present competition never panics; that branch is vacuous.) -/
def Init (root : Bkt) (name : String) (rounds : Int) (teams : List String)
    (username password : String) (now : Int) : Bkt × Option Err :=
  match UpdateCredentials root username password with
  | .error e => (root, some (.wrap "Couldn't update credentials" e))
  | .ok root1 =>
    match Write root1 (some (initCompetition name rounds teams)) now with
    | .ok root2 => (root2, none)
    | .err e => (root1, some (.wrap "Couldn't write competition to database" e))
    | .panicked root2 => (root2, some (.msg "unreachable: panic"))

/-- A sequence of `Write` calls, stopping at the first failure. -/
def writeSeq (root : Bkt) : List (Competition × Int) → WriteResult
  | [] => .ok root
  | (c, t) :: rest =>
    match Write root (some c) t with
    | .ok r => writeSeq r rest
    | .err e => .err e
    | .panicked r => .panicked r

/-- The `last_modified` stamp of the live document, if any. -/
def liveLastModified (root : Bkt) : Option Val :=
  (bGetBkt root (.s "competition")).bind fun cb =>
    (bGetBkt cb (.s "config")).bind fun cfg =>
      bGetVal cfg (.s "last_modified")

/-! ## The bucket contents produced by the encoder

These definitions name the exact association lists `writeCompetition`
builds, so the decoder can be run on them symbolically. -/

/-- Contents of a team's `scores` bucket: one int32 entry per recorded
score, nothing for unscored rounds. -/
def scoreEntries : List (Option Int) → Nat → Bkt
  | [], _ => []
  | none :: rest, i => scoreEntries rest (i + 1)
  | some v :: rest, i =>
    (Key.i (toInt32 i), .v (intToBytes v)) :: scoreEntries rest (i + 1)

/-- Contents of the `rounds` bucket: one name entry per round. -/
def roundEntries : List String → Nat → Bkt
  | [], _ => []
  | r :: rest, i => (Key.i (toInt32 i), .v (.str r)) :: roundEntries rest (i + 1)

/-- Contents of a team bucket as written into a fresh bucket. -/
def teamBkt (t : Team) : Bkt :=
  [(Key.s "name", .v (.str t.name)),
   (Key.s "scores", .b (scoreEntries t.scores 0))]

/-- Contents of the `teams` bucket: one team bucket per team. -/
def teamEntries : List Team → Nat → Bkt
  | [], _ => []
  | t :: rest, i => (Key.i (toInt32 i), .b (teamBkt t)) :: teamEntries rest (i + 1)

/-- The competition bucket `Write` hands to `writeCompetition`: empty for a
revision snapshot, or holding only `config.last_modified` for the live
document. -/
def compShell : Option Val → Bkt
  | none => []
  | some lm => [(Key.s "config", .b [(Key.s "last_modified", .v lm)])]

/-- The competition `config` bucket after encoding. -/
def cfgEntries (lm : Option Val) (c : Competition) : Bkt :=
  match lm with
  | none =>
    [(Key.s "rounds", .v (intToBytes c.rounds.length)),
     (Key.s "teams", .v (intToBytes c.teams.length))]
  | some v =>
    [(Key.s "last_modified", .v v),
     (Key.s "rounds", .v (intToBytes c.rounds.length)),
     (Key.s "teams", .v (intToBytes c.teams.length))]

/-- The full competition bucket after encoding into `compShell lm`. -/
def compBody (lm : Option Val) (c : Competition) : Bkt :=
  match lm with
  | none =>
    [(Key.s "name", .v (.str c.name)),
     (Key.s "config", .b (cfgEntries none c)),
     (Key.s "rounds", .b (roundEntries c.rounds 0)),
     (Key.s "teams", .b (teamEntries c.teams 0))]
  | some v =>
    [(Key.s "config", .b (cfgEntries (some v) c)),
     (Key.s "name", .v (.str c.name)),
     (Key.s "rounds", .b (roundEntries c.rounds 0)),
     (Key.s "teams", .b (teamEntries c.teams 0))]

/-! ## Store well-formedness

`StoreWF` captures the persistent-layout invariant the store maintains:
either no revisions exist (no revisions bucket and no counter key), or the
counter holds an int32 `last ≥ 0` and the revisions bucket holds exactly
the well-formed revisions `0 … last`. -/

/-- Revision `i` of the revisions bucket is well-formed: its config holds a
decodable `last_modified` and its competition snapshot decodes. -/
def revOK (revs : Bkt) (i : Nat) : Bool :=
  match bGetBkt revs (.i (toInt32 i)) with
  | none => false
  | some rb =>
    (match bGetBkt rb (.s "config") with
     | none => false
     | some cfg =>
       match bGetVal cfg (.s "last_modified") with
       | some (.time _) => true
       | _ => false) &&
    (match bGetBkt rb (.s "competition") with
     | none => false
     | some cb =>
       match readCompetition cb with
       | .ok _ => true
       | .error _ => false)

def storeWFb (root : Bkt) : Bool :=
  match bget root (.s "revisions") with
  | some (.v _) => false
  | none =>
    match bGetBkt root (.s "config") with
    | none => true
    | some cfg => (bget cfg (.s "current_revision")).isNone
  | some (.b revs) =>
    match bGetBkt root (.s "config") with
    | none => false
    | some cfg =>
      match bget cfg (.s "current_revision") with
      | some (.v (.i32 last)) =>
        decide (0 ≤ last) && decide (last ≤ int32Max) &&
        (List.range (last.toNat + 1)).all (fun i => revOK revs i) &&
        revs.all (fun ent =>
          match ent.1 with
          | .i v => decide (0 ≤ v) && decide (v ≤ last)
          | .s _ => false)
      | _ => false

def StoreWF (root : Bkt) : Prop := storeWFb root = true

instance (root : Bkt) : Decidable (StoreWF root) := by
  unfold StoreWF; infer_instance

/-! ## `Write` on a live store: the archive-then-swap computation -/

/-- The archived-revision bucket created for displaced document `A` with
timestamp `lm`. -/
def revSnapshot (A : Competition) (lm : Int) : Bkt :=
  [(Key.s "config", .b [(Key.s "last_modified", .v (.time lm))]),
   (Key.s "competition", .b (compBody none A))]

/-- The root after `writeRevision` has archived `A` as revision `L + 1`:
the revisions bucket gains exactly the new snapshot, the config bucket's
`current_revision` becomes `L + 1`, everything else (the live document
included) is untouched. -/
def archMid (root1 cfg revs : Bkt) (A : Competition) (L lm : Int) : Bkt :=
  setEntry (setEntry root1 (.s "revisions")
      (.b (revs ++ [(.i (L + 1), .b (revSnapshot A lm))])))
    (.s "config")
    (.b (setEntry cfg (.s "current_revision") (.v (.i32 (L + 1)))))

/-- The committed root after `Write (some B)` on a live store: the
mid-state with the live container deleted and rebuilt around `B`. -/
def postWrite (root1 cfg revs : Bkt) (A B : Competition) (L lm now : Int) : Bkt :=
  (archMid root1 cfg revs A L lm).filter
      (fun ent => decide (ent.1 ≠ Key.s "competition")) ++
    [(Key.s "competition", .b (compBody (some (.time now)) B))]

/-- A concrete store holding a live competition ("A", one round, one
unscored team), credentials, and no revisions — latest revision id −1. -/
def liveStore : Bkt :=
  [(Key.s "config", Entry.b [(Key.s "username", Entry.v (.str "admin")),
      (Key.s "hash", Entry.v (.hash "pw" 12))]),
   (Key.s "competition", Entry.b
     [(Key.s "config", Entry.b [(Key.s "last_modified", Entry.v (.time 5)),
        (Key.s "rounds", Entry.v (.i32 1)), (Key.s "teams", Entry.v (.i32 1))]),
      (Key.s "name", Entry.v (.str "A")),
      (Key.s "rounds", Entry.b [(Key.i 0, Entry.v (.str "R1"))]),
      (Key.s "teams", Entry.b [(Key.i 0, Entry.b
        [(Key.s "name", Entry.v (.str "T")),
         (Key.s "scores", Entry.b [])])])])]


theorem toInt32_eq_self {i : Int} (h1 : int32Min ≤ i) (h2 : i ≤ int32Max) :
    toInt32 i = i := by
  unfold toInt32 int32Min at *
  unfold int32Max at h2
  omega

theorem toInt32_ofNat_eq_self {n : Nat} (h : n < 2 ^ 31) :
    toInt32 (n : Int) = (n : Int) := by
  apply toInt32_eq_self <;> simp only [int32Min, int32Max] <;> omega

theorem toInt32_lower (i : Int) : int32Min ≤ toInt32 i := by
  unfold toInt32 int32Min
  omega

theorem toInt32_upper (i : Int) : toInt32 i ≤ int32Max := by
  unfold toInt32 int32Max
  omega

/-! ## Lemmas about the bucket primitives -/

theorem bget_setEntry_same (b : Bkt) (k : Key) (e : Entry) :
    bget (setEntry b k e) k = some e := by
  induction b with
  | nil => simp [setEntry, bget]
  | cons hd tl ih =>
    obtain ⟨a, ev⟩ := hd
    by_cases h : a = k
    · simp [setEntry, bget, h]
    · simpa [setEntry, bget, h] using ih

theorem bget_setEntry_ne (b : Bkt) {k k' : Key} (h : k' ≠ k) (e : Entry) :
    bget (setEntry b k e) k' = bget b k' := by
  have h2 : ¬k = k' := fun hc => h hc.symm
  induction b with
  | nil => simp [setEntry, bget, h2]
  | cons hd tl ih =>
    obtain ⟨a, ev⟩ := hd
    by_cases hk : a = k
    · subst hk
      simp [setEntry, bget, h2]
    · by_cases hk2 : a = k'
      · simp [setEntry, bget, hk, hk2, h]
      · simpa [setEntry, bget, hk, hk2] using ih

theorem setEntry_of_absent {b : Bkt} {k : Key} (h : bget b k = none)
    (e : Entry) : setEntry b k e = b ++ [(k, e)] := by
  induction b with
  | nil => simp [setEntry]
  | cons hd tl ih =>
    obtain ⟨a, ev⟩ := hd
    by_cases hk : a = k
    · simp [bget, hk] at h
    · simp only [bget, hk, if_false] at h
      simp [setEntry, hk, ih h]

theorem setEntry_append_last {b : Bkt} {k : Key} (h : bget b k = none)
    (e0 e : Entry) : setEntry (b ++ [(k, e0)]) k e = b ++ [(k, e)] := by
  induction b with
  | nil => simp [setEntry]
  | cons hd tl ih =>
    obtain ⟨a, ev⟩ := hd
    by_cases hk : a = k
    · simp [bget, hk] at h
    · simp only [bget, hk, if_false] at h
      simp [setEntry, hk, ih h]

theorem bget_append_of_none {b1 : Bkt} {k : Key} (h : bget b1 k = none)
    (b2 : Bkt) : bget (b1 ++ b2) k = bget b2 k := by
  induction b1 with
  | nil => simp
  | cons hd tl ih =>
    obtain ⟨a, ev⟩ := hd
    by_cases hk : a = k
    · simp [bget, hk] at h
    · simp only [bget, hk, if_false] at h
      simpa [bget, hk] using ih h

theorem bget_append_of_some {b1 : Bkt} {k : Key} {e : Entry}
    (h : bget b1 k = some e) (b2 : Bkt) : bget (b1 ++ b2) k = some e := by
  induction b1 with
  | nil => simp [bget] at h
  | cons hd tl ih =>
    obtain ⟨a, ev⟩ := hd
    by_cases hk : a = k
    · simp only [bget, hk, if_true] at h
      simp [bget, hk, h]
    · simp only [bget, hk, if_false] at h
      simpa [bget, hk] using ih h

theorem bget_filter_self (b : Bkt) (k : Key) :
    bget (b.filter (fun ent => decide (ent.1 ≠ k))) k = none := by
  induction b with
  | nil => simp [bget]
  | cons hd tl ih =>
    obtain ⟨a, ev⟩ := hd
    by_cases hk : a = k
    · simpa [List.filter, hk] using ih
    · simpa [List.filter, hk, bget] using ih

theorem bget_filter_ne (b : Bkt) {k k' : Key} (h : k' ≠ k) :
    bget (b.filter (fun ent => decide (ent.1 ≠ k))) k' = bget b k' := by
  have h2 : ¬k = k' := fun hc => h hc.symm
  induction b with
  | nil => simp
  | cons hd tl ih =>
    obtain ⟨a, ev⟩ := hd
    by_cases hk : a = k
    · subst hk
      simpa [List.filter, bget, h2] using ih
    · by_cases hk2 : a = k'
      · subst hk2
        simp [List.filter, bget, hk, h]
      · simpa [List.filter, bget, hk, hk2] using ih

theorem toInt32_idem (i : Int) : toInt32 (toInt32 i) = toInt32 i :=
  toInt32_eq_self (toInt32_lower i) (toInt32_upper i)

theorem scoreOK_toInt32_eq {v : Int} (h : scoreOK (some v)) : toInt32 v = v := by
  unfold scoreOK at h
  exact toInt32_eq_self h.1 h.2

theorem ikey_ne {i j : Nat} (hi : i < 2 ^ 31) (hj : j < 2 ^ 31) (h : i ≠ j) :
    Key.i (toInt32 i) ≠ Key.i (toInt32 j) := by
  rw [toInt32_ofNat_eq_self hi, toInt32_ofNat_eq_self hj]
  intro hc
  cases hc
  omega

/-! ## Encoder characterization -/

theorem writeScores_eq : ∀ (l : List (Option Int)) (i : Nat) (sb : Bkt),
    (∀ j : Nat, i ≤ j → j < 2 ^ 31 → bget sb (.i (toInt32 j)) = none) →
    i + l.length ≤ 2 ^ 31 →
    writeScores sb l i = (sb ++ scoreEntries l i, none)
  | [], i, sb, _, _ => by simp [writeScores, scoreEntries]
  | none :: rest, i, sb, h, hb => by
    simp only [writeScores, scoreEntries]
    exact writeScores_eq rest (i + 1) sb
      (fun j hj hjb => h j (by omega) hjb) (by simp at hb ⊢; omega)
  | some v :: rest, i, sb, h, hb => by
    have hi : i < 2 ^ 31 := by simp at hb; omega
    have habs : bget sb (.i (toInt32 i)) = none := h i le_rfl hi
    have hput : bPut sb (.i (toInt32 i)) (intToBytes v) =
        .ok (sb ++ [(Key.i (toInt32 i), .v (intToBytes v))]) := by
      rw [bPut, habs, setEntry_of_absent habs]
    simp only [writeScores, hput]
    have hrec := writeScores_eq rest (i + 1)
      (sb ++ [(Key.i (toInt32 i), .v (intToBytes v))])
      (fun j hj hjb => by
        rw [bget_append_of_none (h j (by omega) hjb)]
        have : Key.i (toInt32 i) ≠ Key.i (toInt32 j) :=
          ikey_ne hi hjb (by omega)
        simp [bget, this])
      (by simp at hb ⊢; omega)
    rw [hrec, scoreEntries, List.append_assoc]
    simp

theorem scoreEntries_bget_lt : ∀ (l : List (Option Int)) (i j : Nat),
    j < i → i + l.length ≤ 2 ^ 31 →
    bget (scoreEntries l i) (.i (toInt32 j)) = none
  | [], _, _, _, _ => by simp [scoreEntries, bget]
  | none :: rest, i, j, hj, hb => by
    rw [scoreEntries]
    exact scoreEntries_bget_lt rest (i + 1) j (by omega) (by simp at hb ⊢; omega)
  | some v :: rest, i, j, hj, hb => by
    have hi : i < 2 ^ 31 := by simp at hb; omega
    have : Key.i (toInt32 i) ≠ Key.i (toInt32 j) :=
      ikey_ne hi (by omega) (by omega)
    rw [scoreEntries]
    simp only [bget, this, if_false]
    exact scoreEntries_bget_lt rest (i + 1) j (by omega) (by simp at hb ⊢; omega)

theorem readScoresGo_eq : ∀ (l : List (Option Int)) (i : Nat) (sb0 : Bkt),
    (∀ j : Nat, i ≤ j → j < 2 ^ 31 → bget sb0 (.i (toInt32 j)) = none) →
    i + l.length ≤ 2 ^ 31 →
    (∀ s ∈ l, scoreOK s) →
    readScoresGo (sb0 ++ scoreEntries l i) i l.length = .ok l
  | [], i, sb0, _, _, _ => by simp [readScoresGo]
  | none :: rest, i, sb0, h, hb, hv => by
    have hi : i < 2 ^ 31 := by simp at hb; omega
    have h1 : bget (sb0 ++ scoreEntries (none :: rest) i) (.i (toInt32 i)) = none := by
      rw [scoreEntries, bget_append_of_none (h i le_rfl hi)]
      exact scoreEntries_bget_lt rest (i + 1) i (by omega) (by simp at hb ⊢; omega)
    have hrec := readScoresGo_eq rest (i + 1) sb0
      (fun j hj hjb => h j (by omega) hjb)
      (by simp at hb ⊢; omega) (fun s hs => hv s (by simp [hs]))
    simp only [List.length_cons, readScoresGo, bGetVal, h1]
    rw [scoreEntries] at h1 ⊢
    rw [hrec]
  | some v :: rest, i, sb0, h, hb, hv => by
    have hi : i < 2 ^ 31 := by simp at hb; omega
    have h1 : bget (sb0 ++ scoreEntries (some v :: rest) i) (.i (toInt32 i)) =
        some (.v (intToBytes v)) := by
      rw [scoreEntries, bget_append_of_none (h i le_rfl hi)]
      simp [bget]
    have hval : bytesToInt (some (intToBytes v)) = .ok v := by
      rw [intToBytes, bytesToInt, toInt32_idem,
        scoreOK_toInt32_eq (hv (some v) (by simp))]
    have hassoc : sb0 ++ scoreEntries (some v :: rest) i =
        (sb0 ++ [(Key.i (toInt32 i), .v (intToBytes v))]) ++
          scoreEntries rest (i + 1) := by
      rw [scoreEntries, List.append_assoc]
      simp
    have hrec := readScoresGo_eq rest (i + 1)
      (sb0 ++ [(Key.i (toInt32 i), .v (intToBytes v))])
      (fun j hj hjb => by
        rw [bget_append_of_none (h j (by omega) hjb)]
        have : Key.i (toInt32 i) ≠ Key.i (toInt32 j) :=
          ikey_ne hi hjb (by omega)
        simp [bget, this])
      (by simp at hb ⊢; omega) (fun s hs => hv s (by simp [hs]))
    simp only [List.length_cons, readScoresGo, bGetVal, h1, hval]
    rw [hassoc, hrec]

theorem writeRounds_eq : ∀ (l : List String) (i : Nat) (rb : Bkt),
    (∀ j : Nat, i ≤ j → j < 2 ^ 31 → bget rb (.i (toInt32 j)) = none) →
    i + l.length ≤ 2 ^ 31 →
    writeRounds rb l i = (rb ++ roundEntries l i, none)
  | [], i, rb, _, _ => by simp [writeRounds, roundEntries]
  | r :: rest, i, rb, h, hb => by
    have hi : i < 2 ^ 31 := by simp at hb; omega
    have habs : bget rb (.i (toInt32 i)) = none := h i le_rfl hi
    have hput : bPut rb (.i (toInt32 i)) (.str r) =
        .ok (rb ++ [(Key.i (toInt32 i), .v (.str r))]) := by
      rw [bPut, habs, setEntry_of_absent habs]
    simp only [writeRounds, hput]
    have hrec := writeRounds_eq rest (i + 1)
      (rb ++ [(Key.i (toInt32 i), .v (.str r))])
      (fun j hj hjb => by
        rw [bget_append_of_none (h j (by omega) hjb)]
        have : Key.i (toInt32 i) ≠ Key.i (toInt32 j) :=
          ikey_ne hi hjb (by omega)
        simp [bget, this])
      (by simp at hb ⊢; omega)
    rw [hrec, roundEntries, List.append_assoc]
    simp

theorem roundEntries_bget_lt : ∀ (l : List String) (i j : Nat),
    j < i → i + l.length ≤ 2 ^ 31 →
    bget (roundEntries l i) (.i (toInt32 j)) = none
  | [], _, _, _, _ => by simp [roundEntries, bget]
  | r :: rest, i, j, hj, hb => by
    have hi : i < 2 ^ 31 := by simp at hb; omega
    have : Key.i (toInt32 i) ≠ Key.i (toInt32 j) :=
      ikey_ne hi (by omega) (by omega)
    rw [roundEntries]
    simp only [bget, this, if_false]
    exact roundEntries_bget_lt rest (i + 1) j (by omega) (by simp at hb ⊢; omega)

theorem readRoundsGo_eq : ∀ (l : List String) (i : Nat) (rb0 : Bkt),
    (∀ j : Nat, i ≤ j → j < 2 ^ 31 → bget rb0 (.i (toInt32 j)) = none) →
    i + l.length ≤ 2 ^ 31 →
    (∀ r ∈ l, r ≠ "") →
    readRoundsGo (rb0 ++ roundEntries l i) i l.length = .ok l
  | [], i, rb0, _, _, _ => by simp [readRoundsGo]
  | r :: rest, i, rb0, h, hb, hv => by
    have hi : i < 2 ^ 31 := by simp at hb; omega
    have h1 : bget (rb0 ++ roundEntries (r :: rest) i) (.i (toInt32 i)) =
        some (.v (.str r)) := by
      rw [roundEntries, bget_append_of_none (h i le_rfl hi)]
      simp [bget]
    have hassoc : rb0 ++ roundEntries (r :: rest) i =
        (rb0 ++ [(Key.i (toInt32 i), .v (.str r))]) ++ roundEntries rest (i + 1) := by
      rw [roundEntries, List.append_assoc]
      simp
    have hrec := readRoundsGo_eq rest (i + 1)
      (rb0 ++ [(Key.i (toInt32 i), .v (.str r))])
      (fun j hj hjb => by
        rw [bget_append_of_none (h j (by omega) hjb)]
        have : Key.i (toInt32 i) ≠ Key.i (toInt32 j) :=
          ikey_ne hi hjb (by omega)
        simp [bget, this])
      (by simp at hb ⊢; omega) (fun s hs => hv s (by simp [hs]))
    have hr : r ≠ "" := hv r (by simp)
    simp only [List.length_cons, readRoundsGo, bGetVal, h1, goStrOf, Val.asGoStr,
      hr, if_false]
    rw [hassoc, hrec]

/-! ## Team-level round trip -/

theorem writeTeam_fresh (t : Team) (rounds : Nat) (hv : validTeam t rounds)
    (hb : rounds ≤ 2 ^ 31) : writeTeam [] t rounds = (teamBkt t, none) := by
  obtain ⟨hname, hlen, hsc⟩ := hv
  have hput : bPut [] (Key.s "name") (.str t.name) =
      .ok [(Key.s "name", .v (.str t.name))] := rfl
  have hscores : writeScores [] t.scores 0 = (scoreEntries t.scores 0, none) := by
    have := writeScores_eq t.scores 0 [] (fun j _ _ => by simp [bget])
      (by omega)
    simpa using this
  have hcreate : bCreateBucketIfNotExists [(Key.s "name", .v (.str t.name))]
      (Key.s "scores") =
      .ok ([(Key.s "name", .v (.str t.name)), (Key.s "scores", .b [])], []) := rfl
  have hcond : ¬t.scores.length ≠ rounds := by rw [hlen]; exact fun h => h rfl
  rw [writeTeam, hput]
  simp only [hcreate, hscores, if_neg hcond]
  rw [teamBkt]
  rfl

theorem readTeam_teamBkt (t : Team) (rounds : Nat) (hv : validTeam t rounds)
    (hb : rounds ≤ 2 ^ 31) : readTeam (teamBkt t) rounds = .ok t := by
  obtain ⟨hname, hlen, hsc⟩ := hv
  have hscores : readScoresGo (scoreEntries t.scores 0) 0 rounds = .ok t.scores := by
    have := readScoresGo_eq t.scores 0 [] (fun j _ _ => by simp [bget])
      (by omega) hsc
    rw [hlen] at this
    simpa using this
  have hn : bGetVal (teamBkt t) (.s "name") = some (.str t.name) := rfl
  have hs : bGetBkt (teamBkt t) (.s "scores") = some (scoreEntries t.scores 0) := rfl
  rw [readTeam]
  simp only [hn, hs, goStrOf, Val.asGoStr, hscores, if_neg hname]

theorem writeTeams_eq (rounds : Nat) (hrb : rounds ≤ 2 ^ 31) :
    ∀ (ts : List Team) (i : Nat) (tb : Bkt),
    (∀ j : Nat, i ≤ j → j < 2 ^ 31 → bget tb (.i (toInt32 j)) = none) →
    i + ts.length ≤ 2 ^ 31 →
    (∀ t ∈ ts, validTeam t rounds) →
    writeTeams tb ts i rounds = (tb ++ teamEntries ts i, none)
  | [], i, tb, _, _, _ => by simp [writeTeams, teamEntries]
  | t :: rest, i, tb, h, hb, hv => by
    have hi : i < 2 ^ 31 := by simp at hb; omega
    have habs : bget tb (.i (toInt32 i)) = none := h i le_rfl hi
    have hcreate : bCreateBucketIfNotExists tb (.i (toInt32 i)) =
        .ok (tb ++ [(Key.i (toInt32 i), .b [])], []) := by
      rw [bCreateBucketIfNotExists, habs, setEntry_of_absent habs]
    have hteam : writeTeam [] t rounds = (teamBkt t, none) :=
      writeTeam_fresh t rounds (hv t (by simp)) hrb
    simp only [writeTeams, hcreate, hteam]
    have hset : setEntry (tb ++ [(Key.i (toInt32 i), .b [])]) (.i (toInt32 i))
        (.b (teamBkt t)) = tb ++ [(Key.i (toInt32 i), .b (teamBkt t))] :=
      setEntry_append_last habs _ _
    rw [hset]
    have hrec := writeTeams_eq rounds hrb rest (i + 1)
      (tb ++ [(Key.i (toInt32 i), .b (teamBkt t))])
      (fun j hj hjb => by
        rw [bget_append_of_none (h j (by omega) hjb)]
        have : Key.i (toInt32 i) ≠ Key.i (toInt32 j) :=
          ikey_ne hi hjb (by omega)
        simp [bget, this])
      (by simp at hb ⊢; omega) (fun u hu => hv u (by simp [hu]))
    rw [hrec, teamEntries, List.append_assoc]
    simp

theorem teamEntries_bget_lt : ∀ (ts : List Team) (i j : Nat),
    j < i → i + ts.length ≤ 2 ^ 31 →
    bget (teamEntries ts i) (.i (toInt32 j)) = none
  | [], _, _, _, _ => by simp [teamEntries, bget]
  | t :: rest, i, j, hj, hb => by
    have hi : i < 2 ^ 31 := by simp at hb; omega
    have : Key.i (toInt32 i) ≠ Key.i (toInt32 j) :=
      ikey_ne hi (by omega) (by omega)
    rw [teamEntries]
    simp only [bget, this, if_false]
    exact teamEntries_bget_lt rest (i + 1) j (by omega) (by simp at hb ⊢; omega)

theorem readTeamsGo_eq (rounds : Nat) (hrb : rounds ≤ 2 ^ 31) :
    ∀ (ts : List Team) (i : Nat) (tb0 : Bkt),
    (∀ j : Nat, i ≤ j → j < 2 ^ 31 → bget tb0 (.i (toInt32 j)) = none) →
    i + ts.length ≤ 2 ^ 31 →
    (∀ t ∈ ts, validTeam t rounds) →
    readTeamsGo (tb0 ++ teamEntries ts i) rounds i ts.length = .ok ts
  | [], i, tb0, _, _, _ => by simp [readTeamsGo]
  | t :: rest, i, tb0, h, hb, hv => by
    have hi : i < 2 ^ 31 := by simp at hb; omega
    have h1 : bget (tb0 ++ teamEntries (t :: rest) i) (.i (toInt32 i)) =
        some (.b (teamBkt t)) := by
      rw [teamEntries, bget_append_of_none (h i le_rfl hi)]
      simp [bget]
    have hteam : readTeam (teamBkt t) rounds = .ok t :=
      readTeam_teamBkt t rounds (hv t (by simp)) hrb
    have hassoc : tb0 ++ teamEntries (t :: rest) i =
        (tb0 ++ [(Key.i (toInt32 i), .b (teamBkt t))]) ++ teamEntries rest (i + 1) := by
      rw [teamEntries, List.append_assoc]
      simp
    have hrec := readTeamsGo_eq rounds hrb rest (i + 1)
      (tb0 ++ [(Key.i (toInt32 i), .b (teamBkt t))])
      (fun j hj hjb => by
        rw [bget_append_of_none (h j (by omega) hjb)]
        have : Key.i (toInt32 i) ≠ Key.i (toInt32 j) :=
          ikey_ne hi hjb (by omega)
        simp [bget, this])
      (by simp at hb ⊢; omega) (fun u hu => hv u (by simp [hu]))
    simp only [List.length_cons, readTeamsGo, bGetBkt, h1, hteam]
    rw [hassoc, hrec]

/-! ## Whole-competition round trip -/

theorem writeCompetition_shell (c : Competition) (lm : Option Val)
    (hv : validCompetition c) :
    writeCompetition (compShell lm) c = (compBody lm c, none) := by
  obtain ⟨hname, hrounds, hrb, htb, hteams⟩ := hv
  have hR : writeRounds [] c.rounds 0 = (roundEntries c.rounds 0, none) := by
    have := writeRounds_eq c.rounds 0 [] (fun j _ _ => by simp [bget]) (by omega)
    simpa using this
  have hT : writeTeams [] c.teams 0 c.rounds.length =
      (teamEntries c.teams 0, none) := by
    have := writeTeams_eq c.rounds.length (by omega) c.teams 0 []
      (fun j _ _ => by simp [bget]) (by omega) hteams
    simpa using this
  cases lm with
  | none =>
    simp [writeCompetition, compShell, bPut, bget, bCreateBucketIfNotExists,
      setEntry, hR, hT, compBody, cfgEntries]
  | some v =>
    simp [writeCompetition, compShell, bPut, bget, bCreateBucketIfNotExists,
      setEntry, hR, hT, compBody, cfgEntries]

theorem readCompetition_compBody (c : Competition) (lm : Option Val)
    (hv : validCompetition c) :
    readCompetition (compBody lm c) = .ok c := by
  obtain ⟨hname, hrounds, hrb, htb, hteams⟩ := hv
  have hRlen : toInt32 (c.rounds.length : Int) = (c.rounds.length : Int) :=
    toInt32_ofNat_eq_self hrb
  have hTlen : toInt32 (c.teams.length : Int) = (c.teams.length : Int) :=
    toInt32_ofNat_eq_self htb
  have hR : readRoundsGo (roundEntries c.rounds 0) 0 c.rounds.length =
      .ok c.rounds := by
    have := readRoundsGo_eq c.rounds 0 [] (fun j _ _ => by simp [bget])
      (by omega) hrounds
    simpa using this
  have hT : readTeamsGo (teamEntries c.teams 0) c.rounds.length 0 c.teams.length =
      .ok c.teams := by
    have := readTeamsGo_eq c.rounds.length (by omega) c.teams 0 []
      (fun j _ _ => by simp [bget]) (by omega) hteams
    simpa using this
  cases lm with
  | none =>
    simp [readCompetition, compBody, cfgEntries, bGetVal, bGetBkt, bget, goStrOf,
      Val.asGoStr, bytesToInt, intToBytes, toInt32_idem, hRlen, hTlen, hname, hR, hT]
  | some v =>
    simp [readCompetition, compBody, cfgEntries, bGetVal, bGetBkt, bget, goStrOf,
      Val.asGoStr, bytesToInt, intToBytes, toInt32_idem, hRlen, hTlen, hname, hR, hT]

/-! ## Decoded values satisfy the data-model invariants -/

theorem readScoresGo_ok : ∀ (fuel i : Nat) (sb : Bkt) (l : List (Option Int)),
    readScoresGo sb i fuel = .ok l → l.length = fuel ∧ ∀ s ∈ l, scoreOK s
  | 0, i, sb, l, h => by
    simp [readScoresGo] at h
    subst h
    simp
  | fuel + 1, i, sb, l, h => by
    rw [readScoresGo] at h
    cases hg : bGetVal sb (.i (toInt32 i)) with
    | some v =>
      rw [hg] at h
      cases v with
      | i32 x =>
        simp only [bytesToInt] at h
        cases hr : readScoresGo sb (i + 1) fuel with
        | error e => rw [hr] at h; cases h
        | ok rest =>
          rw [hr] at h
          cases h
          have ih := readScoresGo_ok fuel (i + 1) sb rest hr
          refine ⟨by simp [ih.1], ?_⟩
          intro s hs
          rcases List.mem_cons.mp hs with h1 | h2
          · subst h1
            exact ⟨toInt32_lower x, toInt32_upper x⟩
          · exact ih.2 s h2
      | str s => simp [bytesToInt] at h
      | time t => simp [bytesToInt] at h
      | hash pw cost => simp [bytesToInt] at h
    | none =>
      rw [hg] at h
      cases hr : readScoresGo sb (i + 1) fuel with
      | error e => rw [hr] at h; cases h
      | ok rest =>
        rw [hr] at h
        cases h
        have ih := readScoresGo_ok fuel (i + 1) sb rest hr
        refine ⟨by simp [ih.1], ?_⟩
        intro s hs
        rcases List.mem_cons.mp hs with h1 | h2
        · subst h1; trivial
        · exact ih.2 s h2

theorem readTeam_ok {b : Bkt} {rounds : Nat} {t : Team}
    (h : readTeam b rounds = .ok t) : validTeam t rounds := by
  rw [readTeam] at h
  by_cases hn : goStrOf (bGetVal b (.s "name")) = ""
  · simp only [hn, if_true] at h
    cases h
  · simp only [hn, if_false] at h
    cases hs : bGetBkt b (.s "scores") with
    | none => simp [hs] at h
    | some sb =>
      simp only [hs] at h
      cases hr : readScoresGo sb 0 rounds with
      | error e => simp [hr] at h
      | ok scores =>
        simp only [hr] at h
        cases h
        have := readScoresGo_ok rounds 0 sb scores hr
        exact ⟨hn, this.1, this.2⟩

theorem readRoundsGo_ok : ∀ (fuel i : Nat) (rb : Bkt) (l : List String),
    readRoundsGo rb i fuel = .ok l → l.length = fuel ∧ ∀ r ∈ l, r ≠ ""
  | 0, i, rb, l, h => by
    simp [readRoundsGo] at h
    subst h
    simp
  | fuel + 1, i, rb, l, h => by
    rw [readRoundsGo] at h
    by_cases hn : goStrOf (bGetVal rb (.i (toInt32 i))) = ""
    · simp only [hn, if_true] at h
      cases h
    · simp only [hn, if_false] at h
      cases hr : readRoundsGo rb (i + 1) fuel with
      | error e => rw [hr] at h; cases h
      | ok rest =>
        rw [hr] at h
        cases h
        have ih := readRoundsGo_ok fuel (i + 1) rb rest hr
        refine ⟨by simp [ih.1], ?_⟩
        intro r hrm
        rcases List.mem_cons.mp hrm with h1 | h2
        · subst h1; exact hn
        · exact ih.2 r h2

theorem readTeamsGo_ok : ∀ (fuel : Nat) (rounds i : Nat) (tb : Bkt)
    (ts : List Team),
    readTeamsGo tb rounds i fuel = .ok ts →
    ts.length = fuel ∧ ∀ t ∈ ts, validTeam t rounds
  | 0, rounds, i, tb, ts, h => by
    simp [readTeamsGo] at h
    subst h
    simp
  | fuel + 1, rounds, i, tb, ts, h => by
    rw [readTeamsGo] at h
    cases hg : bGetBkt tb (.i (toInt32 i)) with
    | none => simp [hg] at h
    | some teamB =>
      simp only [hg] at h
      cases ht : readTeam teamB rounds with
      | error e => simp [ht] at h
      | ok t =>
        simp only [ht] at h
        cases hr : readTeamsGo tb rounds (i + 1) fuel with
        | error e => simp [hr] at h
        | ok rest =>
          simp only [hr] at h
          cases h
          have ih := readTeamsGo_ok fuel rounds (i + 1) tb rest hr
          refine ⟨by simp [ih.1], ?_⟩
          intro u hu
          rcases List.mem_cons.mp hu with h1 | h2
          · subst h1; exact readTeam_ok ht
          · exact ih.2 u h2

theorem readCompetition_valid {b : Bkt} {c : Competition}
    (h : readCompetition b = .ok c) : validCompetition c := by
  rw [readCompetition] at h
  by_cases hn : goStrOf (bGetVal b (.s "name")) = ""
  · simp only [hn, if_true] at h
    cases h
  · simp only [hn, if_false] at h
    cases hcfg : bGetBkt b (.s "config") with
    | none => simp [hcfg] at h
    | some cfg =>
      simp only [hcfg] at h
      cases hri : bytesToInt (bGetVal cfg (.s "rounds")) with
      | error e => simp [hri] at h
      | ok rounds =>
        simp only [hri] at h
        cases hti : bytesToInt (bGetVal cfg (.s "teams")) with
        | error e => simp [hti] at h
        | ok teams =>
          simp only [hti] at h
          by_cases hneg : rounds < 0 ∨ teams < 0
          · rw [if_pos hneg] at h; cases h
          · rw [if_neg hneg] at h
            cases hrbk : bGetBkt b (.s "rounds") with
            | none => simp [hrbk] at h
            | some rb =>
              simp only [hrbk] at h
              cases hrl : readRoundsGo rb 0 rounds.toNat with
              | error e => simp [hrl] at h
              | ok rlist =>
                simp only [hrl] at h
                cases htbk : bGetBkt b (.s "teams") with
                | none => simp [htbk] at h
                | some tb =>
                  simp only [htbk] at h
                  cases htl : readTeamsGo tb rounds.toNat 0 teams.toNat with
                  | error e => simp [htl] at h
                  | ok tlist =>
                    simp only [htl] at h
                    cases h
                    have hrounds := readRoundsGo_ok rounds.toNat 0 rb rlist hrl
                    have hteams := readTeamsGo_ok teams.toNat rounds.toNat 0 tb tlist htl
                    have hrle : rounds ≤ int32Max := by
                      cases hv : bGetVal cfg (.s "rounds") with
                      | none => rw [hv] at hri; cases hri
                      | some v =>
                        rw [hv] at hri
                        cases v with
                        | i32 x =>
                          simp only [bytesToInt] at hri
                          cases hri
                          exact toInt32_upper x
                        | str s => simp [bytesToInt] at hri
                        | time t => simp [bytesToInt] at hri
                        | hash pw cost => simp [bytesToInt] at hri
                    have htle : teams ≤ int32Max := by
                      cases hv : bGetVal cfg (.s "teams") with
                      | none => rw [hv] at hti; cases hti
                      | some v =>
                        rw [hv] at hti
                        cases v with
                        | i32 x =>
                          simp only [bytesToInt] at hti
                          cases hti
                          exact toInt32_upper x
                        | str s => simp [bytesToInt] at hti
                        | time t => simp [bytesToInt] at hti
                        | hash pw cost => simp [bytesToInt] at hti
                    refine ⟨hn, hrounds.2, ?_, ?_, ?_⟩
                    · rw [hrounds.1]
                      simp only [int32Max] at hrle
                      omega
                    · rw [hteams.1]
                      simp only [int32Max] at htle
                      omega
                    · rw [hrounds.1]
                      exact hteams.2

theorem bget_eq_none_of_forall {b : Bkt} {k : Key}
    (h : ∀ ent ∈ b, ent.1 ≠ k) : bget b k = none := by
  induction b with
  | nil => rfl
  | cons hd tl ih =>
    have h1 : hd.1 ≠ k := h hd (by simp)
    simp only [bget, h1, if_false]
    exact ih (fun ent hent => h ent (by simp [hent]))

/-! ## Revision-list lemmas -/

theorem revisionsList_congr {revs revs' : Bkt} : ∀ (n : Nat),
    (∀ i, i < n → bGetBkt revs' (.i (toInt32 i)) = bGetBkt revs (.i (toInt32 i))) →
    revisionsList revs' n = revisionsList revs n
  | 0, _ => rfl
  | n + 1, h => by
    have ih := revisionsList_congr n (fun i hi => h i (by omega))
    have he : revisionEntry revs' n = revisionEntry revs n := by
      rw [revisionEntry, revisionEntry, h n (by omega)]
    rw [revisionsList, revisionsList, ih, he]

theorem revisionsList_of_revOK (revs : Bkt) : ∀ (n : Nat), n ≤ 2 ^ 31 →
    (∀ i, i < n → revOK revs i = true) →
    ∃ rs, revisionsList revs n = .ok rs ∧
      rs.map Revision.id = (List.range n).map (fun i => (i : Int)) ∧
      rs.length = n ∧ ∀ r ∈ rs, r.competition = none
  | 0, _, _ => ⟨[], rfl, by simp, rfl, by simp⟩
  | n + 1, hb, h => by
    obtain ⟨rs, h1, h2, h3, h4⟩ :=
      revisionsList_of_revOK revs n (by omega) (fun i hi => h i (by omega))
    have hok := h n (by omega)
    rw [revOK] at hok
    cases hrb : bGetBkt revs (.i (toInt32 n)) with
    | none => simp [hrb] at hok
    | some rb =>
      simp only [hrb] at hok
      cases hcfg : bGetBkt rb (.s "config") with
      | none => simp [hcfg] at hok
      | some cfg =>
        cases hlmv : bGetVal cfg (.s "last_modified") with
        | none => simp [hcfg, hlmv] at hok
        | some v =>
          cases v with
          | time t =>
            have hentry : revisionEntry revs n = .ok ⟨toInt32 n, t, none⟩ := by
              rw [revisionEntry]
              simp [hrb, hcfg, timeUnmarshal, hlmv]
            refine ⟨rs ++ [⟨toInt32 n, t, none⟩], ?_, ?_, ?_, ?_⟩
            · rw [revisionsList, h1, hentry]
            · rw [List.map_append, h2, List.range_succ]
              simp [toInt32_ofNat_eq_self (by omega : n < 2 ^ 31)]
            · simp [h3]
            · intro r hr
              rcases List.mem_append.mp hr with hm | hm
              · exact h4 r hm
              · simp at hm
                subst hm
                rfl
          | str s => simp [hcfg, hlmv] at hok
          | i32 x => simp [hcfg, hlmv] at hok
          | hash pw cost => simp [hcfg, hlmv] at hok

theorem bget_of_bGetBkt_some {b : Bkt} {k : Key} {bb : Bkt}
    (h : bGetBkt b k = some bb) : bget b k = some (.b bb) := by
  rw [bGetBkt] at h
  cases hg : bget b k with
  | none => rw [hg] at h; cases h
  | some e =>
    cases e with
    | v v0 => rw [hg] at h; cases h
    | b x => rw [hg] at h; cases h; rfl

theorem bget_of_bGetVal_some {b : Bkt} {k : Key} {v : Val}
    (h : bGetVal b k = some v) : bget b k = some (.v v) := by
  rw [bGetVal] at h
  cases hg : bget b k with
  | none => rw [hg] at h; cases h
  | some e =>
    cases e with
    | v v0 => rw [hg] at h; cases h; rfl
    | b x => rw [hg] at h; cases h

theorem revOK_append {revs : Bkt} {i : Nat} (h : revOK revs i = true)
    (tail : Bkt) : revOK (revs ++ tail) i = true := by
  rw [revOK] at h ⊢
  cases hg : bGetBkt revs (.i (toInt32 i)) with
  | none => rw [hg] at h; cases h
  | some rb =>
    rw [hg] at h
    have : bget (revs ++ tail) (.i (toInt32 i)) = some (.b rb) :=
      bget_append_of_some (bget_of_bGetBkt_some hg) tail
    rw [bGetBkt, this]
    exact h

theorem write_core
    (root root1 live liveCfg cfg revs : Bkt) (A B : Competition)
    (L lm now : Int)
    (hlive : bget root (.s "competition") = some (.b live))
    (hread : readCompetition live = .ok A)
    (hlcfg : bGetBkt live (.s "config") = some liveCfg)
    (hlm : bGetVal liveCfg (.s "last_modified") = some (.time lm))
    (hcreate : bCreateBucketIfNotExists root (.s "revisions") = .ok (root1, revs))
    (hlive1 : bget root1 (.s "competition") = some (.b live))
    (hcfg1 : bget root1 (.s "config") = some (.b cfg))
    (hlatest1 : getLatestRevision root1 = .ok L)
    (hL : -1 ≤ L) (hb : L + 1 ≤ int32Max)
    (hkeyabs : bget revs (.i (L + 1)) = none)
    (hcounterNB : ∀ bb, bget cfg (.s "current_revision") ≠ some (.b bb))
    (hB : validCompetition B) :
    writeRevision root = .ok (archMid root1 cfg revs A L lm) ∧
    Write root (some B) now = .ok (postWrite root1 cfg revs A B L lm now) := by
  simp only [postWrite, archMid]
  have hnext : toInt32 (L + 1) = L + 1 :=
    toInt32_eq_self (by simp only [int32Min]; omega) hb
  have hvalidA : validCompetition A := readCompetition_valid hread
  have hwc : writeCompetition [] A = (compBody none A, none) := by
    simpa [compShell] using writeCompetition_shell A none hvalidA
  have h1 : bGetBkt root (.s "competition") = some live := by
    rw [bGetBkt, hlive]
  have h9 : bCreateBucketIfNotExists revs (.i (L + 1)) =
      .ok (revs ++ [(.i (L + 1), .b [])], []) := by
    rw [bCreateBucketIfNotExists, hkeyabs, setEntry_of_absent hkeyabs]
  have h18 : bGetBkt (setEntry root1 (.s "revisions")
      (.b (revs ++ [(.i (L + 1), .b (revSnapshot A lm))]))) (.s "config") =
      some cfg := by
    rw [bGetBkt, bget_setEntry_ne _ (by decide), hcfg1]
  have h19 : bPut cfg (.s "current_revision") (intToBytes (L + 1)) =
      .ok (setEntry cfg (.s "current_revision") (.v (.i32 (L + 1)))) := by
    rw [intToBytes, hnext, bPut]
    cases hgc : bget cfg (.s "current_revision") with
    | none => rfl
    | some e =>
      cases e with
      | v v0 => rfl
      | b bb => exact absurd hgc (hcounterNB bb)
  have h16 : setEntry (revs ++ [(Key.i (L + 1), Entry.b [])]) (.i (L + 1))
      (.b (revSnapshot A lm)) = revs ++ [(.i (L + 1), .b (revSnapshot A lm))] :=
    setEntry_append_last hkeyabs _ _
  have hmid : writeRevision root =
      .ok (setEntry (setEntry root1 (.s "revisions")
              (.b (revs ++ [(.i (L + 1), .b (revSnapshot A lm))])))
            (.s "config")
            (.b (setEntry cfg (.s "current_revision") (.v (.i32 (L + 1)))))) := by
    have hr1 : bCreateBucket ([] : Bkt) (.s "config") =
        .ok ([(Key.s "config", Entry.b [])], []) := rfl
    have hr2 : bPut ([] : Bkt) (.s "last_modified") (.time lm) =
        .ok [(Key.s "last_modified", Entry.v (.time lm))] := rfl
    have hr3 : setEntry [(Key.s "config", Entry.b [])] (.s "config")
        (.b [(Key.s "last_modified", Entry.v (.time lm))]) =
        [(Key.s "config", Entry.b [(Key.s "last_modified", Entry.v (.time lm))])] := rfl
    have hr4 : bCreateBucket
        [(Key.s "config", Entry.b [(Key.s "last_modified", Entry.v (.time lm))])]
        (.s "competition") =
        .ok ([(Key.s "config", Entry.b [(Key.s "last_modified", Entry.v (.time lm))]),
              (Key.s "competition", Entry.b [])], []) := rfl
    have hr5 : setEntry
        [(Key.s "config", Entry.b [(Key.s "last_modified", Entry.v (.time lm))]),
         (Key.s "competition", Entry.b [])]
        (.s "competition") (.b (compBody none A)) = revSnapshot A lm := rfl
    rw [writeRevision]
    simp only [h1, hread, hlcfg, hlm, hcreate, hlatest1, hnext, h9, hr1, hr2, hr3,
      hr4, hwc, hr5, h16, h18, h19, Option.getD]
  refine ⟨hmid, ?_⟩
  have hdel : bget (setEntry (setEntry root1 (.s "revisions")
      (.b (revs ++ [(.i (L + 1), .b (revSnapshot A lm))])))
      (.s "config")
      (.b (setEntry cfg (.s "current_revision") (.v (.i32 (L + 1))))))
      (.s "competition") = some (.b live) := by
    rw [bget_setEntry_ne _ (by decide), bget_setEntry_ne _ (by decide), hlive1]
  set mid := setEntry (setEntry root1 (.s "revisions")
      (.b (revs ++ [(.i (L + 1), .b (revSnapshot A lm))])))
      (.s "config")
      (.b (setEntry cfg (.s "current_revision") (.v (.i32 (L + 1))))) with hmiddef
  have hdelete : bDeleteBucket mid (.s "competition") =
      .ok (mid.filter (fun ent => decide (ent.1 ≠ Key.s "competition"))) := by
    rw [bDeleteBucket, hdel]
  have hfilterabs : bget (mid.filter (fun ent => decide (ent.1 ≠ Key.s "competition")))
      (.s "competition") = none := bget_filter_self mid _
  have hcreateComp : bCreateBucket
      (mid.filter (fun ent => decide (ent.1 ≠ Key.s "competition")))
      (.s "competition") =
      .ok ((mid.filter (fun ent => decide (ent.1 ≠ Key.s "competition"))) ++
        [(Key.s "competition", .b [])], []) := by
    rw [bCreateBucket, hfilterabs, setEntry_of_absent hfilterabs]
  have hwcB : writeCompetition
      [(Key.s "config", Entry.b [(Key.s "last_modified", Entry.v (.time now))])] B =
      (compBody (some (.time now)) B, none) := by
    simpa [compShell] using writeCompetition_shell B (some (.time now)) hB
  have hfinalset : setEntry
      ((mid.filter (fun ent => decide (ent.1 ≠ Key.s "competition"))) ++
        [(Key.s "competition", .b [])])
      (.s "competition") (.b (compBody (some (.time now)) B)) =
      (mid.filter (fun ent => decide (ent.1 ≠ Key.s "competition"))) ++
        [(Key.s "competition", .b (compBody (some (.time now)) B))] :=
    setEntry_append_last hfilterabs _ _
  have hc1 : bCreateBucket ([] : Bkt) (.s "config") =
      .ok ([(Key.s "config", Entry.b [])], []) := rfl
  have hc2 : bPut ([] : Bkt) (.s "last_modified") (.time now) =
      .ok [(Key.s "last_modified", Entry.v (.time now))] := rfl
  have hc3 : setEntry [(Key.s "config", Entry.b [])] (.s "config")
      (.b [(Key.s "last_modified", Entry.v (.time now))]) =
      [(Key.s "config", Entry.b [(Key.s "last_modified", Entry.v (.time now))])] := rfl
  rw [Write]
  simp only [h1, hmid, hdelete, hcreateComp, hc1, hc2, hc3,
    writeCompetitionOpt, hwcB, hfinalset]

theorem write_result_obs
    (root1 cfg revs : Bkt) (A B : Competition) (L lm now : Int)
    (hL : -1 ≤ L) (hb : L + 1 ≤ int32Max)
    (hA : validCompetition A) (hB : validCompetition B)
    (hkeyabs : bget revs (.i (L + 1)) = none)
    (hrevOK : ∀ i : Nat, i < (L + 1).toNat → revOK revs i = true)
    (hallkeys : ∀ ent ∈ revs, ∃ v : Int, ent.1 = .i v ∧ 0 ≤ v ∧ v ≤ L) :
    ∃ rs,
      Read (postWrite root1 cfg revs A B L lm now) = .ok (some B) ∧
      getLatestRevision (postWrite root1 cfg revs A B L lm now) = .ok (L + 1) ∧
      liveLastModified (postWrite root1 cfg revs A B L lm now) =
        some (.time now) ∧
      revisionsList revs (L + 1).toNat = .ok rs ∧
      rs.length = (L + 1).toNat ∧
      rs.map Revision.id = (List.range (L + 1).toNat).map (fun i => (i : Int)) ∧
      (∀ r ∈ rs, r.competition = none) ∧
      Revisions (postWrite root1 cfg revs A B L lm now) =
        .ok (rs ++ [⟨L + 1, lm, none⟩]) ∧
      ReadRevision (postWrite root1 cfg revs A B L lm now) (L + 1) =
        .ok (some ⟨L + 1, lm, some A⟩) ∧
      StoreWF (postWrite root1 cfg revs A B L lm now) := by
  have hnext : toInt32 (L + 1) = L + 1 :=
    toInt32_eq_self (by simp only [int32Min]; omega) hb
  have hcast : (((L + 1).toNat : Nat) : Int) = L + 1 := Int.toNat_of_nonneg (by omega)
  have hkeycast : toInt32 (((L + 1).toNat : Nat) : Int) = L + 1 := by
    rw [hcast, hnext]
  set revs2 := revs ++ [(Key.i (L + 1), Entry.b (revSnapshot A lm))] with hrevs2
  set cfgTop := setEntry cfg (.s "current_revision") (.v (.i32 (L + 1))) with hcfgTop
  set F := (archMid root1 cfg revs A L lm).filter
      (fun ent => decide (ent.1 ≠ Key.s "competition")) with hF
  have hpw : postWrite root1 cfg revs A B L lm now =
      F ++ [(Key.s "competition", .b (compBody (some (.time now)) B))] := rfl
  have hFcomp : bget F (.s "competition") = none := bget_filter_self _ _
  have hbody : bget (postWrite root1 cfg revs A B L lm now) (.s "competition") =
      some (.b (compBody (some (.time now)) B)) := by
    rw [hpw, bget_append_of_none hFcomp]
    simp [bget]
  have hbodyB : bGetBkt (postWrite root1 cfg revs A B L lm now) (.s "competition") =
      some (compBody (some (.time now)) B) := by
    rw [bGetBkt, hbody]
  have hFcfg : bget F (.s "config") = some (.b cfgTop) := by
    rw [hF, bget_filter_ne _ (by decide)]
    rw [archMid, bget_setEntry_same]
  have hcfgpw : bget (postWrite root1 cfg revs A B L lm now) (.s "config") =
      some (.b cfgTop) := by
    rw [hpw]; exact bget_append_of_some hFcfg _
  have hcfgpwB : bGetBkt (postWrite root1 cfg revs A B L lm now) (.s "config") =
      some cfgTop := by
    rw [bGetBkt, hcfgpw]
  have hFrev : bget F (.s "revisions") = some (.b revs2) := by
    rw [hF, bget_filter_ne _ (by decide)]
    rw [archMid, bget_setEntry_ne _ (by decide), bget_setEntry_same]
  have hrevpw : bget (postWrite root1 cfg revs A B L lm now) (.s "revisions") =
      some (.b revs2) := by
    rw [hpw]; exact bget_append_of_some hFrev _
  have hrevpwB : bGetBkt (postWrite root1 cfg revs A B L lm now) (.s "revisions") =
      some revs2 := by
    rw [bGetBkt, hrevpw]
  have hcounter : bget cfgTop (.s "current_revision") =
      some (.v (.i32 (L + 1))) := by
    rw [hcfgTop]; exact bget_setEntry_same _ _ _
  have hRead : Read (postWrite root1 cfg revs A B L lm now) = .ok (some B) := by
    rw [Read]
    simp only [hbodyB, readCompetition_compBody B _ hB]
  have hlat : getLatestRevision (postWrite root1 cfg revs A B L lm now) =
      .ok (L + 1) := by
    rw [getLatestRevision]
    simp only [hcfgpwB, bGetVal, hcounter, bytesToInt, hnext]
  have hlmpost : liveLastModified (postWrite root1 cfg revs A B L lm now) =
      some (.time now) := by
    rw [liveLastModified]
    simp only [hbodyB, Option.bind]
    rfl
  have hn1 : ((L + 1) + 1).toNat = (L + 1).toNat + 1 := by omega
  obtain ⟨rs, hrs, hids, hlen, hnone⟩ :=
    revisionsList_of_revOK revs (L + 1).toNat
      (by simp only [int32Max] at hb; omega) hrevOK
  have hptwise : ∀ i, i < (L + 1).toNat →
      bGetBkt revs2 (.i (toInt32 i)) = bGetBkt revs (.i (toInt32 i)) := by
    intro i hi
    have hok := hrevOK i hi
    rw [revOK] at hok
    cases hg : bGetBkt revs (.i (toInt32 i)) with
    | none => rw [hg] at hok; cases hok
    | some rb =>
      have hsome : bget revs2 (.i (toInt32 i)) = some (.b rb) := by
        rw [hrevs2]; exact bget_append_of_some (bget_of_bGetBkt_some hg) _
      rw [bGetBkt]
      simp only [hsome]
  have hcongr : revisionsList revs2 (L + 1).toNat = .ok rs := by
    rw [revisionsList_congr _ hptwise, hrs]
  have hsnapget : bget revs2 (.i (L + 1)) = some (.b (revSnapshot A lm)) := by
    rw [hrevs2, bget_append_of_none hkeyabs]
    simp [bget]
  have hsnapgetB : bGetBkt revs2 (.i (L + 1)) = some (revSnapshot A lm) := by
    rw [bGetBkt, hsnapget]
  have hentry : revisionEntry revs2 (L + 1).toNat = .ok ⟨L + 1, lm, none⟩ := by
    rw [revisionEntry, hkeycast]
    simp only [hsnapgetB]
    rfl
  have hRevisions : Revisions (postWrite root1 cfg revs A B L lm now) =
      .ok (rs ++ [⟨L + 1, lm, none⟩]) := by
    rw [Revisions]
    simp only [hrevpwB, hlat, hn1, revisionsList, hcongr, hentry]
  have hRR : ReadRevision (postWrite root1 cfg revs A B L lm now) (L + 1) =
      .ok (some ⟨L + 1, lm, some A⟩) := by
    rw [ReadRevision]
    simp only [hrevpwB, hnext, hsnapgetB]
    have hc1 : bGetBkt (revSnapshot A lm) (.s "config") =
        some [(Key.s "last_modified", Entry.v (.time lm))] := rfl
    have hc2 : bGetBkt (revSnapshot A lm) (.s "competition") =
        some (compBody none A) := rfl
    simp only [hc1, hc2, readCompetition_compBody A none hA]
    rfl
  have hsnapOK : revOK revs2 (L + 1).toNat = true := by
    rw [revOK, hkeycast]
    simp only [hsnapgetB]
    have hc2 : bGetBkt (revSnapshot A lm) (.s "competition") =
        some (compBody none A) := rfl
    simp only [hc2, readCompetition_compBody A none hA]
    rfl
  have hWF : StoreWF (postWrite root1 cfg revs A B L lm now) := by
    rw [StoreWF, storeWFb]
    simp only [hrevpw, hcfgpwB, hcounter]
    simp only [Bool.and_eq_true, decide_eq_true_eq, List.all_eq_true,
      List.mem_range]
    refine ⟨⟨⟨by omega, by exact hb⟩, ?_⟩, ?_⟩
    · intro i hi
      rcases Nat.lt_succ_iff_lt_or_eq.mp hi with hi2 | hi2
      · exact revOK_append (hrevOK i hi2) _
      · subst hi2; exact hsnapOK
    · intro ent hent
      rcases List.mem_append.mp hent with hm | hm
      · obtain ⟨v, hv1, hv2, hv3⟩ := hallkeys ent hm
        rw [hv1]
        simp only [Bool.and_eq_true, decide_eq_true_eq]
        exact ⟨by omega, by omega⟩
      · simp only [List.mem_singleton] at hm
        subst hm
        simp only [Bool.and_eq_true, decide_eq_true_eq]
        exact ⟨by omega, by omega⟩
  exact ⟨rs, hRead, hlat, hlmpost, hrs, hlen, hids, hnone, hRevisions, hRR, hWF⟩

theorem archMid_obs (root1 cfg revs live : Bkt) (A : Competition) (L lm : Int)
    (hL : -1 ≤ L) (hb : L + 1 ≤ int32Max)
    (hlive1 : bget root1 (.s "competition") = some (.b live)) :
    bGetBkt (archMid root1 cfg revs A L lm) (.s "competition") = some live ∧
    getLatestRevision (archMid root1 cfg revs A L lm) = .ok (L + 1) := by
  have hnext : toInt32 (L + 1) = L + 1 :=
    toInt32_eq_self (by simp only [int32Min]; omega) hb
  constructor
  · rw [bGetBkt, archMid, bget_setEntry_ne _ (by decide),
      bget_setEntry_ne _ (by decide), hlive1]
  · rw [getLatestRevision]
    have h1 : bGetBkt (archMid root1 cfg revs A L lm) (.s "config") =
        some (setEntry cfg (.s "current_revision") (.v (.i32 (L + 1)))) := by
      rw [bGetBkt, archMid, bget_setEntry_same]
    have h2 : bGetVal (setEntry cfg (.s "current_revision") (.v (.i32 (L + 1))))
        (.s "current_revision") = some (.i32 (L + 1)) := by
      rw [bGetVal, bget_setEntry_same]
    simp only [h1, h2, bytesToInt, hnext]

theorem write_step (root : Bkt) (A B : Competition) (L lm now : Int)
    (hwf : StoreWF root)
    (hread : Read root = .ok (some A))
    (hlm : liveLastModified root = some (.time lm))
    (hlast : getLatestRevision root = .ok L)
    (hb : L + 1 ≤ int32Max)
    (hB : validCompetition B) :
    ∃ mid root' rs,
      writeRevision root = .ok mid ∧
      bGetBkt mid (.s "competition") = bGetBkt root (.s "competition") ∧
      getLatestRevision mid = .ok (L + 1) ∧
      Write root (some B) now = .ok root' ∧
      Read root' = .ok (some B) ∧
      getLatestRevision root' = .ok (L + 1) ∧
      liveLastModified root' = some (.time now) ∧
      Revisions root = .ok rs ∧
      rs.length = (L + 1).toNat ∧
      rs.map Revision.id = (List.range (L + 1).toNat).map (fun i => (i : Int)) ∧
      (∀ r ∈ rs, r.competition = none) ∧
      Revisions root' = .ok (rs ++ [⟨L + 1, lm, none⟩]) ∧
      ReadRevision root' (L + 1) = .ok (some ⟨L + 1, lm, some A⟩) ∧
      StoreWF root' := by
  -- extract the live-document facts from `Read`
  rw [Read] at hread
  cases hliveB : bGetBkt root (.s "competition") with
  | none => simp [hliveB] at hread
  | some live =>
  simp only [hliveB] at hread
  cases hlread : readCompetition live with
  | error e => simp [hlread] at hread
  | ok A0 =>
  simp only [hlread] at hread
  cases hread
  have hliveRaw : bget root (.s "competition") = some (.b live) :=
    bget_of_bGetBkt_some hliveB
  -- extract the last-modified fact
  rw [liveLastModified] at hlm
  simp only [hliveB, Option.bind] at hlm
  cases hlcfgB : bGetBkt live (.s "config") with
  | none => rw [hlcfgB] at hlm; cases hlm
  | some liveCfg =>
  rw [hlcfgB] at hlm
  simp only [] at hlm
  -- extract the config-bucket facts from `getLatestRevision`
  rw [getLatestRevision] at hlast
  cases hcfgB : bGetBkt root (.s "config") with
  | none => simp [hcfgB] at hlast
  | some cfg =>
  simp only [hcfgB] at hlast
  have hcfgRaw : bget root (.s "config") = some (.b cfg) :=
    bget_of_bGetBkt_some hcfgB
  -- case split on the store invariant
  rw [StoreWF, storeWFb] at hwf
  cases hrevraw : bget root (.s "revisions") with
  | none =>
    -- no revisions yet: the counter key is absent and L = -1
    rw [hrevraw] at hwf
    simp only [hcfgB, Option.isNone_iff_eq_none] at hwf
    have hcounterNone : bGetVal cfg (.s "current_revision") = none := by
      rw [bGetVal, hwf]
    rw [hcounterNone] at hlast
    cases hlast
    -- L = -1 now
    have hcreate : bCreateBucketIfNotExists root (.s "revisions") =
        .ok (root ++ [(Key.s "revisions", Entry.b [])], []) := by
      rw [bCreateBucketIfNotExists, hrevraw, setEntry_of_absent hrevraw]
    have hlive1 : bget (root ++ [(Key.s "revisions", Entry.b [])])
        (.s "competition") = some (.b live) := bget_append_of_some hliveRaw _
    have hcfg1 : bget (root ++ [(Key.s "revisions", Entry.b [])])
        (.s "config") = some (.b cfg) := bget_append_of_some hcfgRaw _
    have hlatest1 : getLatestRevision (root ++ [(Key.s "revisions", Entry.b [])]) =
        .ok (-1) := by
      have hcB : bGetBkt (root ++ [(Key.s "revisions", Entry.b [])]) (.s "config") =
          some cfg := by
        rw [bGetBkt, hcfg1]
      rw [getLatestRevision]
      simp only [hcB, hcounterNone]
    have hcounterNB : ∀ bb, bget cfg (.s "current_revision") ≠ some (.b bb) := by
      intro bb hc
      rw [hwf] at hc
      cases hc
    obtain ⟨hmid, hwrite⟩ := write_core root
      (root ++ [(Key.s "revisions", Entry.b [])]) live liveCfg cfg [] A B
      (-1) lm now hliveRaw hlread hlcfgB hlm hcreate hlive1 hcfg1 hlatest1
      (by omega) (by simpa using hb) rfl hcounterNB hB
    obtain ⟨rs, hRead, hlat, hlmpost, hrs, hlen, hids, hnone, hRevs, hRR, hWF⟩ :=
      write_result_obs (root ++ [(Key.s "revisions", Entry.b [])]) cfg [] A B
        (-1) lm now (by omega) (by simpa using hb)
        (readCompetition_valid hlread) hB rfl
        (by intro i hi; omega)
        (by intro ent hent; cases hent)
    have hrs0 : rs = [] := by
      have : revisionsList ([] : Bkt) ((-1 : Int) + 1).toNat = .ok [] := rfl
      rw [this] at hrs
      cases hrs
      rfl
    subst hrs0
    have hRevRoot : Revisions root = .ok [] := by
      rw [Revisions, bGetBkt, hrevraw]
    obtain ⟨hmidcomp, hmidlat⟩ := archMid_obs
      (root ++ [(Key.s "revisions", Entry.b [])]) cfg [] live A (-1) lm
      (by omega) (by simpa using hb) hlive1
    exact ⟨_, _, [], hmid, hmidcomp, hmidlat, hwrite, hRead,
      hlat, hlmpost, hRevRoot, hlen, hids, hnone, hRevs, hRR, hWF⟩
  | some ent =>
    cases ent with
    | v v0 => rw [hrevraw] at hwf; cases hwf
    | b revs =>
    rw [hrevraw] at hwf
    simp only [hcfgB] at hwf
    cases hcounterRaw : bget cfg (.s "current_revision") with
    | none => rw [hcounterRaw] at hwf; cases hwf
    | some cent =>
    cases cent with
    | b bb => rw [hcounterRaw] at hwf; cases hwf
    | v cv =>
    cases cv with
    | str s0 => rw [hcounterRaw] at hwf; cases hwf
    | time t0 => rw [hcounterRaw] at hwf; cases hwf
    | hash p0 c0 => rw [hcounterRaw] at hwf; cases hwf
    | i32 last =>
    rw [hcounterRaw] at hwf
    simp only [Bool.and_eq_true, decide_eq_true_eq, List.all_eq_true,
      List.mem_range] at hwf
    obtain ⟨⟨⟨hlast0, hlastMax⟩, hallOK⟩, hallKeysB⟩ := hwf
    have hcounterVal : bGetVal cfg (.s "current_revision") = some (.i32 last) := by
      rw [bGetVal, hcounterRaw]
    rw [hcounterVal] at hlast
    simp only [bytesToInt] at hlast
    have hlastwrap : toInt32 last = last :=
      toInt32_eq_self (by simp only [int32Min]; omega) hlastMax
    rw [hlastwrap] at hlast
    cases hlast
    have hallkeys : ∀ ent2 ∈ revs, ∃ v : Int, ent2.1 = .i v ∧ 0 ≤ v ∧ v ≤ L := by
      intro ent2 hent2
      have := hallKeysB ent2 hent2
      cases hk : ent2.1 with
      | s sn => rw [hk] at this; cases this
      | i v =>
        rw [hk] at this
        simp only [Bool.and_eq_true, decide_eq_true_eq] at this
        exact ⟨v, rfl, this.1, this.2⟩
    have hkeyabs : bget revs (.i (L + 1)) = none := by
      apply bget_eq_none_of_forall
      intro ent2 hent2
      obtain ⟨v, hv1, hv2, hv3⟩ := hallkeys ent2 hent2
      rw [hv1]
      intro hc
      cases hc
      omega
    have hcreate : bCreateBucketIfNotExists root (.s "revisions") =
        .ok (root, revs) := by
      rw [bCreateBucketIfNotExists, hrevraw]
    have hlatest1 : getLatestRevision root = .ok L := by
      rw [getLatestRevision]
      simp only [hcfgB, hcounterVal, bytesToInt, hlastwrap]
    have hcounterNB : ∀ bb, bget cfg (.s "current_revision") ≠ some (.b bb) := by
      intro bb hc
      rw [hcounterRaw] at hc
      cases hc
    obtain ⟨hmid, hwrite⟩ := write_core root root live liveCfg cfg revs A B
      L lm now hliveRaw hlread hlcfgB hlm hcreate hliveRaw hcfgRaw hlatest1
      (by omega) hb hkeyabs hcounterNB hB
    have hrevOK : ∀ i : Nat, i < (L + 1).toNat → revOK revs i = true := by
      intro i hi
      exact hallOK i (by omega)
    obtain ⟨rs, hRead, hlat, hlmpost, hrs, hlen, hids, hnone, hRevs, hRR, hWF⟩ :=
      write_result_obs root cfg revs A B L lm now (by omega) hb
        (readCompetition_valid hlread) hB hkeyabs hrevOK hallkeys
    have hRevRoot : Revisions root = .ok rs := by
      have hrevB : bGetBkt root (.s "revisions") = some revs := by
        rw [bGetBkt, hrevraw]
      rw [Revisions]
      simp only [hrevB, hlatest1, hrs]
    obtain ⟨hmidcomp, hmidlat⟩ := archMid_obs root cfg revs live A L lm
      (by omega) hb hliveRaw
    exact ⟨_, _, rs, hmid, hmidcomp, hmidlat, hwrite, hRead,
      hlat, hlmpost, hRevRoot, hlen, hids, hnone, hRevs, hRR, hWF⟩

/-! ## UpdateCredentials: structure and frame -/

theorem bget_append_single_ne {b : Bkt} {k0 : Key} (e : Entry) {k : Key}
    (h : k ≠ k0) : bget (b ++ [(k0, e)]) k = bget b k := by
  cases hg : bget b k with
  | some e2 => exact bget_append_of_some hg _
  | none =>
    rw [bget_append_of_none hg]
    have h2 : ¬k0 = k := fun hc => h hc.symm
    simp [bget, h2]

theorem UpdateCredentials_obs (root : Bkt) (u p : String) (root' : Bkt)
    (h : UpdateCredentials root u p = .ok root') :
    (∀ k, k ≠ Key.s "config" → bget root' k = bget root k) ∧
    ∃ cfg', bGetBkt root' (.s "config") = some cfg' ∧
      bGetVal cfg' (.s "username") = some (.str u) ∧
      bGetVal cfg' (.s "hash") = some (.hash p 12) ∧
      ∀ k, k ≠ Key.s "username" → k ≠ Key.s "hash" →
        bget cfg' k = bget ((bGetBkt root (.s "config")).getD []) k := by
  rw [UpdateCredentials] at h
  cases hc : bCreateBucketIfNotExists root (.s "config") with
  | error e => simp [hc] at h
  | ok pair =>
  obtain ⟨root1, cfg0⟩ := pair
  simp only [hc] at h
  cases hpu : bPut cfg0 (.s "username") (.str u) with
  | error e => simp [hpu] at h
  | ok cfg1 =>
  simp only [hpu] at h
  cases hph : bPut cfg1 (.s "hash") (.hash p 12) with
  | error e => simp [hph] at h
  | ok cfg2 =>
  simp only [hph] at h
  cases h
  -- dissect the bucket creation
  rw [bCreateBucketIfNotExists] at hc
  rw [bPut] at hpu hph
  have hcfg1 : cfg1 = setEntry cfg0 (.s "username") (.v (.str u)) := by
    cases hg : bget cfg0 (.s "username") with
    | none => rw [hg] at hpu; cases hpu; rfl
    | some e =>
      cases e with
      | v v0 => rw [hg] at hpu; cases hpu; rfl
      | b bb => rw [hg] at hpu; cases hpu
  have hcfg2 : cfg2 = setEntry cfg1 (.s "hash") (.v (.hash p 12)) := by
    cases hg : bget cfg1 (.s "hash") with
    | none => rw [hg] at hph; cases hph; rfl
    | some e =>
      cases e with
      | v v0 => rw [hg] at hph; cases hph; rfl
      | b bb => rw [hg] at hph; cases hph
  have husername : bGetVal cfg2 (.s "username") = some (.str u) := by
    rw [bGetVal, hcfg2, bget_setEntry_ne _ (by decide), hcfg1, bget_setEntry_same]
  have hhash : bGetVal cfg2 (.s "hash") = some (.hash p 12) := by
    rw [bGetVal, hcfg2, bget_setEntry_same]
  have hcfgframe : ∀ k, k ≠ Key.s "username" → k ≠ Key.s "hash" →
      bget cfg2 k = bget cfg0 k := by
    intro k h1 h2
    rw [hcfg2, bget_setEntry_ne _ h2, hcfg1, bget_setEntry_ne _ h1]
  cases hg0 : bget root (.s "config") with
  | none =>
    rw [hg0, setEntry_of_absent hg0] at hc
    cases hc
    refine ⟨?_, cfg2, ?_, husername, hhash, ?_⟩
    · intro k hk
      rw [bget_setEntry_ne _ hk, bget_append_single_ne _ hk]
    · rw [bGetBkt, bget_setEntry_same]
    · intro k h1 h2
      rw [hcfgframe k h1 h2, bGetBkt, hg0]
      simp [bget]
  | some e0 =>
    cases e0 with
    | v v0 => rw [hg0] at hc; cases hc
    | b cfg =>
      rw [hg0] at hc
      cases hc
      refine ⟨?_, cfg2, ?_, husername, hhash, ?_⟩
      · intro k hk
        rw [bget_setEntry_ne _ hk]
      · rw [bGetBkt, bget_setEntry_same]
      · intro k h1 h2
        rw [hcfgframe k h1 h2, bGetBkt, hg0]
        simp

theorem UpdateCredentials_frame (root : Bkt) (u p : String) (root' : Bkt)
    (h : UpdateCredentials root u p = .ok root') :
    Read root' = Read root ∧
    (∀ id, ReadRevision root' id = ReadRevision root id) ∧
    (∀ cfg, bGetBkt root (.s "config") = some cfg →
      getLatestRevision root' = getLatestRevision root ∧
      Revisions root' = Revisions root) := by
  obtain ⟨hframe, cfg', hcfg', husername, hhash, hcfgframe⟩ :=
    UpdateCredentials_obs root u p root' h
  have hcomp : bGetBkt root' (.s "competition") = bGetBkt root (.s "competition") := by
    rw [bGetBkt, bGetBkt, hframe _ (by decide)]
  have hrev : bGetBkt root' (.s "revisions") = bGetBkt root (.s "revisions") := by
    rw [bGetBkt, bGetBkt, hframe _ (by decide)]
  refine ⟨?_, ?_, ?_⟩
  · rw [Read, Read, hcomp]
  · intro id
    rw [ReadRevision, ReadRevision, hrev]
  · intro cfg hcfg
    have hlat : getLatestRevision root' = getLatestRevision root := by
      have hcv : bGetVal cfg' (.s "current_revision") =
          bGetVal cfg (.s "current_revision") := by
        rw [bGetVal, bGetVal, hcfgframe _ (by decide) (by decide), hcfg]
        simp
      rw [getLatestRevision, getLatestRevision]
      simp only [hcfg, hcfg', hcv]
    exact ⟨hlat, by rw [Revisions, Revisions, hrev, hlat]⟩

theorem revisions_of_WF (root : Bkt) (L : Int) (hwf : StoreWF root)
    (hlast : getLatestRevision root = .ok L) :
    ∃ rs, Revisions root = .ok rs ∧ rs.length = (L + 1).toNat ∧
      rs.map Revision.id = (List.range (L + 1).toNat).map (fun i => (i : Int)) ∧
      ∀ r ∈ rs, r.competition = none := by
  rw [getLatestRevision] at hlast
  cases hcfgB : bGetBkt root (.s "config") with
  | none => simp [hcfgB] at hlast
  | some cfg =>
  simp only [hcfgB] at hlast
  rw [StoreWF, storeWFb] at hwf
  cases hrevraw : bget root (.s "revisions") with
  | none =>
    rw [hrevraw] at hwf
    simp only [hcfgB, Option.isNone_iff_eq_none] at hwf
    have hcounterNone : bGetVal cfg (.s "current_revision") = none := by
      rw [bGetVal, hwf]
    rw [hcounterNone] at hlast
    cases hlast
    refine ⟨[], ?_, by simp, by simp, by simp⟩
    rw [Revisions, bGetBkt, hrevraw]
  | some ent =>
    cases ent with
    | v v0 => rw [hrevraw] at hwf; cases hwf
    | b revs =>
    rw [hrevraw] at hwf
    simp only [hcfgB] at hwf
    cases hcounterRaw : bget cfg (.s "current_revision") with
    | none => rw [hcounterRaw] at hwf; cases hwf
    | some cent =>
    cases cent with
    | b bb => rw [hcounterRaw] at hwf; cases hwf
    | v cv =>
    cases cv with
    | str s0 => rw [hcounterRaw] at hwf; cases hwf
    | time t0 => rw [hcounterRaw] at hwf; cases hwf
    | hash p0 c0 => rw [hcounterRaw] at hwf; cases hwf
    | i32 last =>
    rw [hcounterRaw] at hwf
    simp only [Bool.and_eq_true, decide_eq_true_eq, List.all_eq_true,
      List.mem_range] at hwf
    obtain ⟨⟨⟨hlast0, hlastMax⟩, hallOK⟩, _⟩ := hwf
    have hcounterVal : bGetVal cfg (.s "current_revision") = some (.i32 last) := by
      rw [bGetVal, hcounterRaw]
    rw [hcounterVal] at hlast
    simp only [bytesToInt] at hlast
    rw [toInt32_eq_self (by simp only [int32Min]; omega) hlastMax] at hlast
    cases hlast
    obtain ⟨rs, hrs, hids, hlen, hnone⟩ :=
      revisionsList_of_revOK revs (L + 1).toNat
        (by simp only [int32Max] at hlastMax; omega)
        (fun i hi => hallOK i (by omega))
    have hrevB : bGetBkt root (.s "revisions") = some revs := by
      rw [bGetBkt, hrevraw]
    have hlatest : getLatestRevision root = .ok L := by
      rw [getLatestRevision]
      simp only [hcfgB, hcounterVal, bytesToInt,
        toInt32_eq_self (by simp only [int32Min]; omega) hlastMax]
    refine ⟨rs, ?_, hlen, hids, hnone⟩
    rw [Revisions]
    simp only [hrevB, hlatest, hrs]

theorem writeSeq_revisions : ∀ (cs : List (Competition × Int)) (root : Bkt)
    (A : Competition) (L lm : Int),
    StoreWF root → Read root = .ok (some A) →
    liveLastModified root = some (.time lm) →
    getLatestRevision root = .ok L →
    (∀ ct ∈ cs, validCompetition ct.1) →
    L + cs.length ≤ int32Max →
    ∃ root' rs, writeSeq root cs = .ok root' ∧
      Revisions root' = .ok rs ∧
      rs.length = (L + 1 + cs.length).toNat ∧
      rs.map Revision.id =
        (List.range (L + 1 + cs.length).toNat).map (fun i => (i : Int)) ∧
      ∀ r ∈ rs, r.competition = none
  | [], root, A, L, lm, hwf, hread, hlm, hlast, _, hb => by
    obtain ⟨rs, h1, h2, h3, h4⟩ := revisions_of_WF root L hwf hlast
    exact ⟨root, rs, rfl, h1, by simpa using h2, by simpa using h3, h4⟩
  | (c, t) :: rest, root, A, L, lm, hwf, hread, hlm, hlast, hv, hb => by
    have hc : validCompetition c := hv (c, t) (by simp)
    obtain ⟨mid, root2, rs, _, _, _, hwrite, hread2, hlat2, hlm2, _, _, _, _, _,
      _, hwf2⟩ := write_step root A c L lm t hwf hread hlm hlast
        (by simp at hb; omega) hc
    obtain ⟨root', rs', hseq, hrevs, hlen, hids, hnone⟩ :=
      writeSeq_revisions rest root2 c (L + 1) t hwf2 hread2 hlm2 hlat2
        (fun ct hct => hv ct (by simp [hct]))
        (by simp at hb ⊢; omega)
    have hlc : (L + 1 + 1 + (rest.length : Int)) =
        (L + 1 + ((((c, t) :: rest).length : Nat) : Int)) := by
      simp only [List.length_cons]
      push_cast
      omega
    refine ⟨root', rs', ?_, hrevs, ?_, ?_, hnone⟩
    · rw [writeSeq]
      simp only [hwrite, hseq]
    · rw [hlen, hlc]
    · rw [hids, hlc]

/-! ## Claim theorems -/

/-- Claim C3: for every valid Competition (non-empty competition name,
non-empty round names, non-empty team names, every team's score-sequence
length equal to the round count — including zero rounds, zero teams, and
mixed scored/unscored entries), decoding the container produced by encoding
yields a Competition equal to the original; absent score keys decode as
unscored (`none`) and present keys as their int32 value.  `compShell lm` is
the (empty or config-only) bucket `writeCompetition` is handed by the
store. -/
theorem C3_encode_decode_roundtrip (c : Competition) (lm : Option Val)
    (h : validCompetition c) :
    (writeCompetition (compShell lm) c).2 = none ∧
    readCompetition (writeCompetition (compShell lm) c).1 = .ok c := by
  rw [writeCompetition_shell c lm h]
  exact ⟨rfl, readCompetition_compBody c lm h⟩

/-- Witness for C3 at a competition with mixed scored/unscored entries. -/
theorem C3_encode_decode_roundtrip_witness :
    validCompetition ⟨"Regional", ["R1", "R2"],
      [⟨"Alpha", [some 10, none]⟩, ⟨"Beta", [none, some (-5)]⟩]⟩ ∧
    ((writeCompetition (compShell none) ⟨"Regional", ["R1", "R2"],
      [⟨"Alpha", [some 10, none]⟩, ⟨"Beta", [none, some (-5)]⟩]⟩).2 = none ∧
    readCompetition (writeCompetition (compShell none) ⟨"Regional", ["R1", "R2"],
      [⟨"Alpha", [some 10, none]⟩, ⟨"Beta", [none, some (-5)]⟩]⟩).1 =
      .ok ⟨"Regional", ["R1", "R2"],
        [⟨"Alpha", [some 10, none]⟩, ⟨"Beta", [none, some (-5)]⟩]⟩) :=
  ⟨by decide, C3_encode_decode_roundtrip _ none (by decide)⟩

theorem writeTeam_fresh_len (t : Team) (rounds : Nat)
    (hlen : t.scores.length = rounds) (hb : rounds ≤ 2 ^ 31) :
    writeTeam [] t rounds = (teamBkt t, none) := by
  have hput : bPut [] (Key.s "name") (.str t.name) =
      .ok [(Key.s "name", .v (.str t.name))] := rfl
  have hscores : writeScores [] t.scores 0 = (scoreEntries t.scores 0, none) := by
    have := writeScores_eq t.scores 0 [] (fun j _ _ => by simp [bget])
      (by omega)
    simpa using this
  have hcreate : bCreateBucketIfNotExists [(Key.s "name", .v (.str t.name))]
      (Key.s "scores") =
      .ok ([(Key.s "name", .v (.str t.name)), (Key.s "scores", .b [])], []) := rfl
  have hcond : ¬t.scores.length ≠ rounds := by rw [hlen]; exact fun h => h rfl
  rw [writeTeam, hput]
  simp only [hcreate, hscores, if_neg hcond]
  rw [teamBkt]
  rfl

theorem writeTeam_bad (t : Team) (rounds : Nat)
    (hbad : t.scores.length ≠ rounds) :
    writeTeam [] t rounds =
      ([(Key.s "name", Entry.v (.str t.name))],
        some (.shapeMismatch t.name t.scores.length rounds)) := by
  have hput : bPut [] (Key.s "name") (.str t.name) =
      .ok [(Key.s "name", .v (.str t.name))] := rfl
  rw [writeTeam, hput]
  simp only [if_pos hbad]

theorem writeTeams_first_bad (rounds : Nat) (hrb : rounds ≤ 2 ^ 31) :
    ∀ (ts : List Team) (i : Nat) (tb : Bkt),
    (∀ j : Nat, i ≤ j → j < 2 ^ 31 → bget tb (.i (toInt32 j)) = none) →
    i + ts.length ≤ 2 ^ 31 →
    (∃ t ∈ ts, t.scores.length ≠ rounds) →
    ∃ t ∈ ts, t.scores.length ≠ rounds ∧
      (writeTeams tb ts i rounds).2 =
        some (.wrap "Couldn't write Competition Time"
          (.shapeMismatch t.name t.scores.length rounds))
  | [], _, _, _, _, hbad => by simp at hbad
  | t :: rest, i, tb, h, hb, hbad => by
    have hi : i < 2 ^ 31 := by simp at hb; omega
    have habs : bget tb (.i (toInt32 i)) = none := h i le_rfl hi
    have hcreate : bCreateBucketIfNotExists tb (.i (toInt32 i)) =
        .ok (tb ++ [(Key.i (toInt32 i), .b [])], []) := by
      rw [bCreateBucketIfNotExists, habs, setEntry_of_absent habs]
    by_cases ht : t.scores.length ≠ rounds
    · refine ⟨t, by simp, ht, ?_⟩
      rw [writeTeams]
      simp only [hcreate, writeTeam_bad t rounds ht]
    · have hlen : t.scores.length = rounds := by omega
      have hteam : writeTeam [] t rounds = (teamBkt t, none) :=
        writeTeam_fresh_len t rounds hlen hrb
      have hbad2 : ∃ u ∈ rest, u.scores.length ≠ rounds := by
        obtain ⟨u, hu1, hu2⟩ := hbad
        rcases List.mem_cons.mp hu1 with he | he
        · subst he; exact absurd hu2 ht
        · exact ⟨u, he, hu2⟩
      obtain ⟨u, hu1, hu2, hres⟩ := writeTeams_first_bad rounds hrb rest (i + 1)
        (tb ++ [(Key.i (toInt32 i), .b (teamBkt t))])
        (fun j hj hjb => by
          rw [bget_append_of_none (h j (by omega) hjb)]
          have : Key.i (toInt32 i) ≠ Key.i (toInt32 j) :=
            ikey_ne hi hjb (by omega)
          simp [bget, this])
        (by simp at hb ⊢; omega) hbad2
      refine ⟨u, by simp [hu1], hu2, ?_⟩
      rw [writeTeams]
      simp only [hcreate, hteam]
      rw [setEntry_append_last habs]
      exact hres

/-- Claim C4 (amended): encoding a Competition in which some team's
score-sequence length differs from the round count fails with a
ShapeMismatch error for the first offending team — but the length check
runs only AFTER bytes (at least the competition name, and the offending
team's name) have already been written into the destination container;
nothing persists only because the enclosing transaction rolls back. -/
theorem C4_shape_mismatch (c : Competition) (lm : Option Val)
    (hrb : c.rounds.length ≤ 2 ^ 31) (htb : c.teams.length ≤ 2 ^ 31)
    (hbad : ∃ t ∈ c.teams, t.scores.length ≠ c.rounds.length) :
    ∃ t ∈ c.teams, t.scores.length ≠ c.rounds.length ∧
      (writeCompetition (compShell lm) c).2 =
        some (.wrap "Couldn't write Competition Time"
          (.shapeMismatch t.name t.scores.length c.rounds.length)) ∧
      ((writeCompetition (compShell lm) c).2.map Err.root) =
        some (.shapeMismatch t.name t.scores.length c.rounds.length) ∧
      bGetVal (writeCompetition (compShell lm) c).1 (.s "name") =
        some (.str c.name) := by
  have hR : writeRounds [] c.rounds 0 = (roundEntries c.rounds 0, none) := by
    have := writeRounds_eq c.rounds 0 [] (fun j _ _ => by simp [bget]) (by omega)
    simpa using this
  obtain ⟨t, ht1, ht2, hres⟩ := writeTeams_first_bad c.rounds.length hrb
    c.teams 0 [] (fun j _ _ => by simp [bget]) (by omega) hbad
  refine ⟨t, ht1, ht2, ?_⟩
  cases lm with
  | none =>
    simp [writeCompetition, compShell, bPut, bget, bCreateBucketIfNotExists,
      setEntry, hR, hres, bGetVal, Err.root]
  | some v =>
    simp [writeCompetition, compShell, bPut, bget, bCreateBucketIfNotExists,
      setEntry, hR, hres, bGetVal, Err.root]

/-- Counterexample for C4 as stated: at the concrete competition
`⟨"C", ["R1"], [⟨"T", []⟩]⟩` the encoder does fail with ShapeMismatch, but
the destination container is NOT left untouched — the competition name has
already been written when the length check runs, refuting "writes no bytes
to the destination container: the length check is performed before any
bytes are written". -/
theorem C4_counterexample :
    ((writeCompetition [] ⟨"C", ["R1"], [⟨"T", []⟩]⟩).2.map Err.root) =
      some (.shapeMismatch "T" 0 1) ∧
    (writeCompetition [] ⟨"C", ["R1"], [⟨"T", []⟩]⟩).1 ≠ [] ∧
    bGetVal (writeCompetition [] ⟨"C", ["R1"], [⟨"T", []⟩]⟩).1 (.s "name") =
      some (.str "C") := by decide

/-- Witness for C4 (amended) at the concrete shape-mismatching input. -/
theorem C4_shape_mismatch_witness :
    ((⟨"C", ["R1"], [⟨"T", []⟩]⟩ : Competition).rounds.length ≤ 2 ^ 31 ∧
     (⟨"C", ["R1"], [⟨"T", []⟩]⟩ : Competition).teams.length ≤ 2 ^ 31 ∧
     (∃ t ∈ (⟨"C", ["R1"], [⟨"T", []⟩]⟩ : Competition).teams,
       t.scores.length ≠ (⟨"C", ["R1"], [⟨"T", []⟩]⟩ : Competition).rounds.length)) ∧
    (∃ t ∈ (⟨"C", ["R1"], [⟨"T", []⟩]⟩ : Competition).teams,
      t.scores.length ≠ 1 ∧
      (writeCompetition (compShell none) ⟨"C", ["R1"], [⟨"T", []⟩]⟩).2 =
        some (.wrap "Couldn't write Competition Time"
          (.shapeMismatch t.name t.scores.length 1)) ∧
      ((writeCompetition (compShell none) ⟨"C", ["R1"], [⟨"T", []⟩]⟩).2.map Err.root) =
        some (.shapeMismatch t.name t.scores.length 1) ∧
      bGetVal (writeCompetition (compShell none) ⟨"C", ["R1"], [⟨"T", []⟩]⟩).1
        (.s "name") = some (.str "C")) :=
  ⟨⟨by decide, by decide, by decide⟩,
   C4_shape_mismatch ⟨"C", ["R1"], [⟨"T", []⟩]⟩ none (by decide) (by decide)
     (by decide)⟩

/-- Claim C5, code behaviour at the failing input: `Write(nil)` does not
clear the store; `writeCompetition` dereferences the nil Competition and
panics, the deferred handler (seeing `err == nil`) COMMITS the partial
state — a live container holding only `config.last_modified` — and a
subsequent `Read` returns the error "Competition name was empty" instead of
reporting no document. -/
theorem C5_nil_write_panics :
    Write [] none 0 =
      .panicked [(Key.s "competition",
        Entry.b [(Key.s "config",
          Entry.b [(Key.s "last_modified", Entry.v (.time 0))])])] ∧
    Read [(Key.s "competition",
        Entry.b [(Key.s "config",
          Entry.b [(Key.s "last_modified", Entry.v (.time 0))])])] =
      .error (.msg "Competition name was empty") := by decide

/-- Claim C6, code behaviour at the failing input: `Init` (db.go:39,
`make([]int32, rounds)`) bootstraps every team's scores as PRESENT zeros,
so after initializing with 2 rounds and teams Alpha/Beta, `Read` returns
scores `[some 0, some 0]` for each team — not the `[none, none]`
("nil, not zero") the claim requires. -/
theorem C6_init_zero_scores :
    (Init [] "Regional" 2 ["Alpha", "Beta"] "admin" "pw" 11).2 = none ∧
    Read (Init [] "Regional" 2 ["Alpha", "Beta"] "admin" "pw" 11).1 =
      .ok (some ⟨"Regional", ["Round 1", "Round 2"],
        [⟨"Alpha", [some 0, some 0]⟩, ⟨"Beta", [some 0, some 0]⟩]⟩) ∧
    Read (Init [] "Regional" 2 ["Alpha", "Beta"] "admin" "pw" 11).1 ≠
      .ok (some ⟨"Regional", ["Round 1", "Round 2"],
        [⟨"Alpha", [none, none]⟩, ⟨"Beta", [none, none]⟩]⟩) := by decide

/-- Counterexample for C8 as stated: on a store where no credentials have
ever been set (no config container), `Authenticate` returns an ERROR, not
`false`. -/
theorem C8_counterexample :
    Authenticate [] "admin" "pw" =
      .error (.msg "Database config Bucket was nil") ∧
    Authenticate [] "admin" "pw" ≠ .ok false ∧
    Authenticate [] "admin" "pw" ≠ .ok true := by decide

/-- Claim C8 (amended): once credentials have been stored,
`authenticate` returns `true` iff the stored username matches exactly and
the password hash-verifies, and `false` — not an error — on any mismatch;
but when no config container exists (credentials never set) it returns the
error "Database config Bucket was nil". -/
theorem C8_authenticate (root root' : Bkt) (u p u2 p2 : String)
    (h : UpdateCredentials root u p = .ok root') :
    Authenticate root' u2 p2 = .ok (decide (u2 = u) && decide (p2 = p)) ∧
    ∀ r : Bkt, bGetBkt r (.s "config") = none →
      Authenticate r u2 p2 = .error (.msg "Database config Bucket was nil") := by
  obtain ⟨_, cfg', hcfg', hu, hh, _⟩ := UpdateCredentials_obs root u p root' h
  constructor
  · rw [Authenticate]
    simp only [hcfg', hu, hh, goStrOf, Val.asGoStr, bcryptVerify]
    by_cases he : u2 = u
    · subst he
      rw [if_neg (by exact fun hc => hc rfl)]
      by_cases hp : p = p2
      · subst hp
        simp
      · have h1 : (p == p2) = false := by
          simp [hp]
        have h2 : ¬p2 = p := fun hc => hp hc.symm
        simp [h1, h2]
    · rw [if_pos he]
      simp [he]
  · intro r hr
    rw [Authenticate, hr]

/-- Witness for C8 (amended) at concrete credentials. -/
theorem C8_authenticate_witness :
    UpdateCredentials [] "admin" "pw" =
      .ok [(Key.s "config", Entry.b [(Key.s "username", Entry.v (.str "admin")),
        (Key.s "hash", Entry.v (.hash "pw" 12))])] ∧
    (Authenticate [(Key.s "config", Entry.b
        [(Key.s "username", Entry.v (.str "admin")),
         (Key.s "hash", Entry.v (.hash "pw" 12))])] "admin" "nope" =
      .ok (decide (("admin" : String) = "admin") &&
           decide (("nope" : String) = "pw")) ∧
     ∀ r : Bkt, bGetBkt r (.s "config") = none →
       Authenticate r "admin" "nope" =
         .error (.msg "Database config Bucket was nil")) :=
  ⟨by decide, C8_authenticate [] _ "admin" "pw" "admin" "nope" (by decide)⟩

/-- Claim C2: whenever any step of `Write` fails with an error (decoding
the displaced document, the archive step, encoding, etc.), the transaction
is rolled back: the persisted state equals the pre-write state exactly, so
a subsequent `Read` returns the pre-write document and `Revisions` shows no
new entry.  (`applyWrite` is the persisted state after the call: bolt's
rollback keeps the pre-state on `.err`.) -/
theorem C2_write_error_rolls_back (root : Bkt) (c : Option Competition)
    (now : Int) (e : Err) (h : Write root c now = .err e) :
    applyWrite root c now = root ∧
    Read (applyWrite root c now) = Read root ∧
    Revisions (applyWrite root c now) = Revisions root ∧
    getLatestRevision (applyWrite root c now) = getLatestRevision root ∧
    ∀ id, ReadRevision (applyWrite root c now) id = ReadRevision root id := by
  have hs : applyWrite root c now = root := by rw [applyWrite, h]
  exact ⟨hs, by rw [hs], by rw [hs], by rw [hs], fun id => by rw [hs]⟩

/-- Witness for C2: a store holding a live document but no config bucket
makes the archive step fail; the state is unchanged. -/
theorem C2_write_error_rolls_back_witness :
    Write [(Key.s "competition", Entry.b [])] (some ⟨"B", ["R1"], [⟨"T2", [some 3]⟩]⟩) 0 =
      .err (.wrap "Couldn't write Revision"
        (.wrap "Couldn't read competition" (.msg "Competition name was empty"))) ∧
    (applyWrite [(Key.s "competition", Entry.b [])]
        (some ⟨"B", ["R1"], [⟨"T2", [some 3]⟩]⟩) 0 =
      [(Key.s "competition", Entry.b [])] ∧
     Read (applyWrite [(Key.s "competition", Entry.b [])]
        (some ⟨"B", ["R1"], [⟨"T2", [some 3]⟩]⟩) 0) =
       Read [(Key.s "competition", Entry.b [])] ∧
     Revisions (applyWrite [(Key.s "competition", Entry.b [])]
        (some ⟨"B", ["R1"], [⟨"T2", [some 3]⟩]⟩) 0) =
       Revisions [(Key.s "competition", Entry.b [])] ∧
     getLatestRevision (applyWrite [(Key.s "competition", Entry.b [])]
        (some ⟨"B", ["R1"], [⟨"T2", [some 3]⟩]⟩) 0) =
       getLatestRevision [(Key.s "competition", Entry.b [])] ∧
     ∀ id, ReadRevision (applyWrite [(Key.s "competition", Entry.b [])]
        (some ⟨"B", ["R1"], [⟨"T2", [some 3]⟩]⟩) 0) id =
       ReadRevision [(Key.s "competition", Entry.b [])] id) :=
  ⟨by decide,
   C2_write_error_rolls_back [(Key.s "competition", Entry.b [])]
     (some ⟨"B", ["R1"], [⟨"T2", [some 3]⟩]⟩) 0
     (.wrap "Couldn't write Revision"
       (.wrap "Couldn't read competition" (.msg "Competition name was empty")))
     (by decide)⟩

/-- Counterexample for C9 as stated: on the degenerate store holding a
revisions container but no config container, `UpdateCredentials` changes
the result of `Revisions` from an error to the empty list. -/
theorem C9_counterexample :
    UpdateCredentials [(Key.s "revisions", Entry.b [])] "u" "p" =
      .ok [(Key.s "revisions", Entry.b []),
        (Key.s "config", Entry.b [(Key.s "username", Entry.v (.str "u")),
          (Key.s "hash", Entry.v (.hash "p" 12))])] ∧
    Revisions [(Key.s "revisions", Entry.b [])] =
      .error (.wrap "Couldn't get latest Revision"
        (.msg "Database config Bucket was nil")) ∧
    Revisions [(Key.s "revisions", Entry.b []),
        (Key.s "config", Entry.b [(Key.s "username", Entry.v (.str "u")),
          (Key.s "hash", Entry.v (.hash "p" 12))])] = .ok [] := by decide

/-- Claim C9 (amended): a successful `UpdateCredentials` runs in its own
transaction and modifies only the stored username and password hash: it
never alters `Read` or `ReadRevision`, it leaves every top-level key other
than `config` untouched and every config key other than `username`/`hash`
untouched, and — on every state whose top-level config container exists (in
particular every state where credentials were ever set) — it leaves
`getLatestRevision` and `Revisions` unchanged as well.  (On a degenerate
state with a revisions container but no config container, `Revisions`
changes from an error to the empty list, see the counterexample.) -/
theorem C9_credential_isolation (root : Bkt) (u p : String) (root' : Bkt)
    (h : UpdateCredentials root u p = .ok root') :
    Read root' = Read root ∧
    (∀ id, ReadRevision root' id = ReadRevision root id) ∧
    (∀ cfg, bGetBkt root (.s "config") = some cfg →
      getLatestRevision root' = getLatestRevision root ∧
      Revisions root' = Revisions root) ∧
    (∀ k, k ≠ Key.s "config" → bget root' k = bget root k) ∧
    ∃ cfg', bGetBkt root' (.s "config") = some cfg' ∧
      bGetVal cfg' (.s "username") = some (.str u) ∧
      bGetVal cfg' (.s "hash") = some (.hash p 12) ∧
      ∀ k, k ≠ Key.s "username" → k ≠ Key.s "hash" →
        bget cfg' k = bget ((bGetBkt root (.s "config")).getD []) k := by
  obtain ⟨h1, h2, h3⟩ := UpdateCredentials_frame root u p root' h
  obtain ⟨h4, h5⟩ := UpdateCredentials_obs root u p root' h
  exact ⟨h1, h2, h3, h4, h5⟩

/-- Witness for C9 (amended) at a concrete store with credentials and a
live document. -/
theorem C9_credential_isolation_witness :
    UpdateCredentials [(Key.s "config", Entry.b []),
        (Key.s "competition", Entry.b [])] "bob" "s3cret" =
      .ok [(Key.s "config", Entry.b [(Key.s "username", Entry.v (.str "bob")),
          (Key.s "hash", Entry.v (.hash "s3cret" 12))]),
        (Key.s "competition", Entry.b [])] ∧
    (Read [(Key.s "config", Entry.b [(Key.s "username", Entry.v (.str "bob")),
          (Key.s "hash", Entry.v (.hash "s3cret" 12))]),
        (Key.s "competition", Entry.b [])] =
      Read [(Key.s "config", Entry.b []), (Key.s "competition", Entry.b [])] ∧
     (∀ id, ReadRevision [(Key.s "config",
          Entry.b [(Key.s "username", Entry.v (.str "bob")),
            (Key.s "hash", Entry.v (.hash "s3cret" 12))]),
          (Key.s "competition", Entry.b [])] id =
        ReadRevision [(Key.s "config", Entry.b []),
          (Key.s "competition", Entry.b [])] id) ∧
     (∀ cfg, bGetBkt [(Key.s "config", Entry.b []),
          (Key.s "competition", Entry.b [])] (.s "config") = some cfg →
        getLatestRevision [(Key.s "config",
            Entry.b [(Key.s "username", Entry.v (.str "bob")),
              (Key.s "hash", Entry.v (.hash "s3cret" 12))]),
            (Key.s "competition", Entry.b [])] =
          getLatestRevision [(Key.s "config", Entry.b []),
            (Key.s "competition", Entry.b [])] ∧
        Revisions [(Key.s "config",
            Entry.b [(Key.s "username", Entry.v (.str "bob")),
              (Key.s "hash", Entry.v (.hash "s3cret" 12))]),
            (Key.s "competition", Entry.b [])] =
          Revisions [(Key.s "config", Entry.b []),
            (Key.s "competition", Entry.b [])]) ∧
     (∀ k, k ≠ Key.s "config" →
        bget [(Key.s "config", Entry.b [(Key.s "username", Entry.v (.str "bob")),
            (Key.s "hash", Entry.v (.hash "s3cret" 12))]),
          (Key.s "competition", Entry.b [])] k =
          bget [(Key.s "config", Entry.b []),
            (Key.s "competition", Entry.b [])] k) ∧
     ∃ cfg', bGetBkt [(Key.s "config",
          Entry.b [(Key.s "username", Entry.v (.str "bob")),
            (Key.s "hash", Entry.v (.hash "s3cret" 12))]),
          (Key.s "competition", Entry.b [])] (.s "config") = some cfg' ∧
        bGetVal cfg' (.s "username") = some (.str "bob") ∧
        bGetVal cfg' (.s "hash") = some (.hash "s3cret" 12) ∧
        ∀ k, k ≠ Key.s "username" → k ≠ Key.s "hash" →
          bget cfg' k = bget ((bGetBkt [(Key.s "config", Entry.b []),
            (Key.s "competition", Entry.b [])] (.s "config")).getD []) k) :=
  ⟨by decide,
   C9_credential_isolation [(Key.s "config", Entry.b []),
     (Key.s "competition", Entry.b [])] "bob" "s3cret" _ (by decide)⟩

/-- Claim C10: `Init` commits the credential update in its own transaction
before attempting the competition write in a second transaction.  Whenever
the credential update succeeds but the write fails, `Init` returns an error
yet the new username and password hash remain persisted — initialization is
not atomic across credentials and document. -/
theorem C10_init_not_atomic (root r1 : Bkt) (name : String) (rounds : Int)
    (teams : List String) (u p : String) (now : Int) (e : Err)
    (hcred : UpdateCredentials root u p = .ok r1)
    (hwrite : Write r1 (some (initCompetition name rounds teams)) now = .err e) :
    Init root name rounds teams u p now =
      (r1, some (.wrap "Couldn't write competition to database" e)) ∧
    Authenticate r1 u p = .ok true ∧
    ∃ cfg', bGetBkt r1 (.s "config") = some cfg' ∧
      bGetVal cfg' (.s "username") = some (.str u) ∧
      bGetVal cfg' (.s "hash") = some (.hash p 12) := by
  obtain ⟨_, cfg', hcfg', hu, hh, _⟩ := UpdateCredentials_obs root u p r1 hcred
  refine ⟨?_, ?_, cfg', hcfg', hu, hh⟩
  · rw [Init]
    simp only [hcred, hwrite]
  · rw [Authenticate]
    simp only [hcfg', hu, hh, goStrOf, Val.asGoStr, bcryptVerify]
    rw [if_neg (by exact fun hc => hc rfl)]
    simp

/-- Witness for C10: a store whose live container is malformed makes the
bootstrap write fail after the credentials have been committed. -/
theorem C10_init_not_atomic_witness :
    (UpdateCredentials [(Key.s "competition", Entry.b [])] "admin" "pw" =
      .ok [(Key.s "competition", Entry.b []),
        (Key.s "config", Entry.b [(Key.s "username", Entry.v (.str "admin")),
          (Key.s "hash", Entry.v (.hash "pw" 12))])] ∧
     Write [(Key.s "competition", Entry.b []),
        (Key.s "config", Entry.b [(Key.s "username", Entry.v (.str "admin")),
          (Key.s "hash", Entry.v (.hash "pw" 12))])]
        (some (initCompetition "X" 1 ["T"])) 0 =
      .err (.wrap "Couldn't write Revision"
        (.wrap "Couldn't read competition" (.msg "Competition name was empty")))) ∧
    (Init [(Key.s "competition", Entry.b [])] "X" 1 ["T"] "admin" "pw" 0 =
      ([(Key.s "competition", Entry.b []),
        (Key.s "config", Entry.b [(Key.s "username", Entry.v (.str "admin")),
          (Key.s "hash", Entry.v (.hash "pw" 12))])],
       some (.wrap "Couldn't write competition to database"
        (.wrap "Couldn't write Revision"
          (.wrap "Couldn't read competition"
            (.msg "Competition name was empty"))))) ∧
     Authenticate [(Key.s "competition", Entry.b []),
        (Key.s "config", Entry.b [(Key.s "username", Entry.v (.str "admin")),
          (Key.s "hash", Entry.v (.hash "pw" 12))])] "admin" "pw" = .ok true ∧
     ∃ cfg', bGetBkt [(Key.s "competition", Entry.b []),
        (Key.s "config", Entry.b [(Key.s "username", Entry.v (.str "admin")),
          (Key.s "hash", Entry.v (.hash "pw" 12))])] (.s "config") = some cfg' ∧
       bGetVal cfg' (.s "username") = some (.str "admin") ∧
       bGetVal cfg' (.s "hash") = some (.hash "pw" 12)) :=
  ⟨⟨by decide, by decide⟩,
   C10_init_not_atomic [(Key.s "competition", Entry.b [])] _ "X" 1 ["T"]
     "admin" "pw" 0 _ (by decide) (by decide)⟩

/-- Claim C1: on every well-formed store state holding a live competition
`A` (last modified `lm`) whose latest revision id is `L` (−1 when no
revisions exist), `Write (some B)` with a valid `B` succeeds: afterwards
`Read` returns `B`, `Revisions` contains exactly one new entry with id
`L + 1` (and timestamp `lm`), and `ReadRevision (L + 1)` returns the
displaced competition `A`.  The archive — including persisting `L + 1` as
the new latest revision — happens strictly before the live container is
cleared: `writeRevision` produces the mid-transaction state `mid` in which
the live container is still untouched and the counter is already `L + 1`,
and the deletion/rebuild runs after it inside the same transaction. -/
theorem C1_archive_on_write (root : Bkt) (A B : Competition) (L lm now : Int)
    (hwf : StoreWF root)
    (hread : Read root = .ok (some A))
    (hlm : liveLastModified root = some (.time lm))
    (hlast : getLatestRevision root = .ok L)
    (hb : L + 1 ≤ int32Max)
    (hB : validCompetition B) :
    ∃ mid root' rs,
      writeRevision root = .ok mid ∧
      bGetBkt mid (.s "competition") = bGetBkt root (.s "competition") ∧
      getLatestRevision mid = .ok (L + 1) ∧
      Write root (some B) now = .ok root' ∧
      Read root' = .ok (some B) ∧
      Revisions root = .ok rs ∧
      Revisions root' = .ok (rs ++ [⟨L + 1, lm, none⟩]) ∧
      ReadRevision root' (L + 1) = .ok (some ⟨L + 1, lm, some A⟩) := by
  obtain ⟨mid, root', rs, h1, h2, h3, h4, h5, _, _, h8, _, _, _, h12, h13, _⟩ :=
    write_step root A B L lm now hwf hread hlm hlast hb hB
  exact ⟨mid, root', rs, h1, h2, h3, h4, h5, h8, h12, h13⟩

/-- Witness for C1 at the concrete `liveStore` and a concrete `B`. -/
theorem C1_archive_on_write_witness :
    (StoreWF liveStore ∧
     Read liveStore = .ok (some ⟨"A", ["R1"], [⟨"T", [none]⟩]⟩) ∧
     liveLastModified liveStore = some (.time 5) ∧
     getLatestRevision liveStore = .ok (-1) ∧
     (-1 : Int) + 1 ≤ int32Max ∧
     validCompetition ⟨"B", ["R1"], [⟨"T2", [some 3]⟩]⟩) ∧
    (∃ mid root' rs,
      writeRevision liveStore = .ok mid ∧
      bGetBkt mid (.s "competition") = bGetBkt liveStore (.s "competition") ∧
      getLatestRevision mid = .ok ((-1) + 1) ∧
      Write liveStore (some ⟨"B", ["R1"], [⟨"T2", [some 3]⟩]⟩) 9 = .ok root' ∧
      Read root' = .ok (some ⟨"B", ["R1"], [⟨"T2", [some 3]⟩]⟩) ∧
      Revisions liveStore = .ok rs ∧
      Revisions root' = .ok (rs ++ [⟨(-1) + 1, 5, none⟩]) ∧
      ReadRevision root' ((-1) + 1) =
        .ok (some ⟨(-1) + 1, 5, some ⟨"A", ["R1"], [⟨"T", [none]⟩]⟩⟩)) :=
  ⟨⟨by decide, by decide, by decide, by decide, by decide, by decide⟩,
   C1_archive_on_write liveStore ⟨"A", ["R1"], [⟨"T", [none]⟩]⟩
     ⟨"B", ["R1"], [⟨"T2", [some 3]⟩]⟩ (-1) 5 9 (by decide) (by decide)
     (by decide) (by decide) (by decide) (by decide)⟩

/-- Claim C7: (1) when no revisions container exists, `Revisions` returns
the empty list, not an error; (2) on every store state satisfying the
persistent-layout invariant `StoreWF` (the invariant every operation of the
store maintains) with persisted latest revision id `L`, the archived
revisions are exactly ids `0 … L` and `Revisions` returns them in ascending
id order with the Competition field omitted; (3) after `N` sequential
successful writes of valid competitions to a non-empty store with no
revisions (latest id −1), `Revisions` has length `N` with ids `0 … N−1` in
order (for `N` within the int32 counter's capacity). -/
theorem C7_revisions_ordered :
    (∀ root : Bkt, bGetBkt root (.s "revisions") = none →
      Revisions root = .ok []) ∧
    (∀ (root : Bkt) (L : Int), StoreWF root → getLatestRevision root = .ok L →
      ∃ rs, Revisions root = .ok rs ∧ rs.length = (L + 1).toNat ∧
        rs.map Revision.id = (List.range (L + 1).toNat).map (fun i => (i : Int)) ∧
        ∀ r ∈ rs, r.competition = none) ∧
    (∀ (root : Bkt) (A : Competition) (lm : Int) (cs : List (Competition × Int)),
      StoreWF root → Read root = .ok (some A) →
      liveLastModified root = some (.time lm) →
      getLatestRevision root = .ok (-1) →
      (∀ ct ∈ cs, validCompetition ct.1) →
      ((cs.length : Nat) : Int) ≤ int32Max + 1 →
      ∃ root' rs, writeSeq root cs = .ok root' ∧ Revisions root' = .ok rs ∧
        rs.length = cs.length ∧
        rs.map Revision.id = (List.range cs.length).map (fun i => (i : Int)) ∧
        ∀ r ∈ rs, r.competition = none) := by
  refine ⟨?_, ?_, ?_⟩
  · intro root h
    rw [Revisions, h]
  · intro root L hwf hlast
    exact revisions_of_WF root L hwf hlast
  · intro root A lm cs hwf hread hlm hlast hv hb
    obtain ⟨root', rs, h1, h2, h3, h4, h5⟩ :=
      writeSeq_revisions cs root A (-1) lm hwf hread hlm hlast hv
        (by simp only [int32Max] at hb ⊢; omega)
    have hnn : ((-1 : Int) + 1 + (cs.length : Nat)).toNat = cs.length := by omega
    refine ⟨root', rs, h1, h2, ?_, ?_, h5⟩
    · rw [h3, hnn]
    · rw [h4, hnn]

/-- Witness for C7: two sequential writes on the concrete `liveStore`
produce revisions 0 and 1 in order. -/
theorem C7_revisions_ordered_witness :
    (StoreWF liveStore ∧
     Read liveStore = .ok (some ⟨"A", ["R1"], [⟨"T", [none]⟩]⟩) ∧
     liveLastModified liveStore = some (.time 5) ∧
     getLatestRevision liveStore = .ok (-1) ∧
     (∀ ct ∈ [((⟨"B", ["R1"], [⟨"T2", [some 3]⟩]⟩ : Competition), (9 : Int)),
              ((⟨"C", ["R1"], [⟨"T2", [none]⟩]⟩ : Competition), (10 : Int))],
        validCompetition ct.1) ∧
     ((([((⟨"B", ["R1"], [⟨"T2", [some 3]⟩]⟩ : Competition), (9 : Int)),
         ((⟨"C", ["R1"], [⟨"T2", [none]⟩]⟩ : Competition), (10 : Int))].length : Nat) : Int) ≤
       int32Max + 1)) ∧
    (∃ root' rs, writeSeq liveStore
        [((⟨"B", ["R1"], [⟨"T2", [some 3]⟩]⟩ : Competition), (9 : Int)),
         ((⟨"C", ["R1"], [⟨"T2", [none]⟩]⟩ : Competition), (10 : Int))] = .ok root' ∧
      Revisions root' = .ok rs ∧
      rs.length = 2 ∧
      rs.map Revision.id = (List.range 2).map (fun i => (i : Int)) ∧
      ∀ r ∈ rs, r.competition = none) :=
  ⟨⟨by decide, by decide, by decide, by decide, by decide, by decide⟩,
   C7_revisions_ordered.2.2 liveStore ⟨"A", ["R1"], [⟨"T", [none]⟩]⟩ 5
     [((⟨"B", ["R1"], [⟨"T2", [some 3]⟩]⟩ : Competition), (9 : Int)),
      ((⟨"C", ["R1"], [⟨"T2", [none]⟩]⟩ : Competition), (10 : Int))]
     (by decide) (by decide) (by decide) (by decide) (by decide) (by decide)⟩

end CompScorer
